import Mathlib

/-!
Verification development for the VNRename folder-renaming tool
(sources: `main_CLI.py` and `main_GUI.py`).

The Python sources are shallowly embedded: pure functions become Lean
functions, the catalog HTTP calls become explicit parameters holding the
already-parsed response (with `Option`/`Except` marking the failure paths
the code recovers from), filesystem listings become an `Except Unit
(List String)` parameter (`.error` models an `os.listdir` exception that
the code swallows), and Python `float` arithmetic is modelled over `ℚ`.
Python loops that consume a non-structural amount of input are embedded
with an explicit fuel argument so that every definition computes by
kernel reduction; the fuel passed by the wrapper definitions is always
sufficient, and all lemmas are proved for the wrappers.
-/

namespace VNRename

/-! ### Python string primitives -/

/-- Characters for which Python's `str.isspace` (and hence the no-argument
`str.strip`) returns `True`.  This is the Unicode whitespace set used by
CPython's `str.strip`. -/
def pyIsSpace (c : Char) : Bool :=
  c.toNat ∈ [0x20, 0x9, 0xa, 0xd, 0xb, 0xc, 0x1c, 0x1d, 0x1e, 0x1f,
             0x85, 0xa0, 0x1680, 0x2028, 0x2029, 0x202f, 0x205f, 0x3000] ∨
  (0x2000 ≤ c.toNat ∧ c.toNat ≤ 0x200a)

/-- Python `s.strip()` on a list of characters. -/
def pyStripL (l : List Char) : List Char :=
  ((l.dropWhile pyIsSpace).reverse.dropWhile pyIsSpace).reverse

/-- Python `s.strip()`. -/
def pyStrip (s : String) : String :=
  String.mk (pyStripL s.data)

/-- Python `str.lower`, modelled on the ASCII range: characters `A`-`Z` map to
`a`-`z` and every other character is unchanged.  (Python also lowercases
non-ASCII cased letters; no keyword or comparison in this code base
distinguishes those, since all keyword constants are ASCII or Japanese.) -/
def pyLowerChar (c : Char) : Char :=
  if 65 ≤ c.toNat ∧ c.toNat ≤ 90 then Char.ofNat (c.toNat + 32) else c

/-- Python `s.lower()`. -/
def pyLower (s : String) : String :=
  String.mk (s.data.map pyLowerChar)

/-- ASCII decimal digit test. -/
def isDigitCh (c : Char) : Bool :=
  48 ≤ c.toNat ∧ c.toNat ≤ 57

/-- Python `s.isdigit()`, restricted to ASCII decimal digits: true iff the
string is non-empty and every character is `0`-`9`.  (Python additionally
accepts non-ASCII digit characters; on those the source's subsequent
`int(...)` conversion would raise, a path no claim depends on.) -/
def pyIsDigitStr (s : String) : Bool :=
  ¬s.data.isEmpty ∧ s.data.all isDigitCh

/-- Numeric value of an ASCII digit character. -/
def digitVal (c : Char) : Nat :=
  c.toNat - 48

/-- Boolean test that `p` is a prefix of the second list. -/
def listPrefixOf : List Char → List Char → Bool
  | [], _ => true
  | _ :: _, [] => false
  | c :: cs, d :: ds => c = d && listPrefixOf cs ds

/-- Boolean test that the first list occurs contiguously inside the second. -/
def listInfixOf (needle : List Char) : List Char → Bool
  | [] => needle.isEmpty
  | c :: rest => listPrefixOf needle (c :: rest) || listInfixOf needle rest

/-- Python `kw in s` (substring containment). -/
def pyContains (s kw : String) : Bool :=
  listInfixOf kw.data s.data

/-- Truthiness of an optional Python string (`None` and `""` are falsy). -/
def truthyStr : Option String → Bool
  | some s => s ≠ ""
  | none => false

/-- Decimal digit character for a value below 10. -/
def digitChr (n : Nat) : Char :=
  Char.ofNat (48 + n % 10)

/-- Auxiliary decimal printer with explicit fuel (fuel `≥ n` suffices). -/
def natStrAux : Nat → Nat → List Char
  | 0, n => [digitChr n]
  | fuel + 1, n =>
    if n < 10 then [digitChr n]
    else natStrAux fuel (n / 10) ++ [digitChr (n % 10)]

/-- Decimal rendering of a natural number, as Python's `str`/f-string does. -/
def natStr (n : Nat) : String :=
  String.mk (natStrAux n n)

/-! ### The bracketed-span scanner

Python's `re.findall(r'\[(.*?)\]', s)` scans left to right; at an opening
bracket the non-greedy `(.*?)` matches up to the first following `]`, and
fails if a newline (which `.` does not match) or the end of the string comes
first, in which case scanning resumes one character further on. -/

/-- Scan for the first closing character: returns the span contents and the
remainder after the closer, or `none` if a newline or the end of input is
reached first (mirroring that `.` does not match a newline). -/
def scanSpan (close : Char) : List Char → Option (List Char × List Char)
  | [] => none
  | c :: rest =>
    if c = close then some ([], rest)
    else if c = '\n' then none
    else
      match scanSpan close rest with
      | some (sp, r) => some (c :: sp, r)
      | none => none

/-- Fueled core of `re.findall(r'\[(.*?)\]', s)` (fuel `> length` suffices). -/
def fbs : Nat → List Char → List String
  | 0, _ => []
  | _, [] => []
  | fuel + 1, c :: rest =>
    if c = '[' then
      match scanSpan ']' rest with
      | some (sp, rest') => String.mk sp :: fbs fuel rest'
      | none => fbs fuel rest
    else fbs fuel rest

/-- All bracketed spans of a character list, in order: the matches of
`re.findall(r'\[(.*?)\]', s)`. -/
def findBracketSpans (l : List Char) : List String :=
  fbs (l.length + 1) l

/-- Fueled core of `re.sub(pattern, '', s)` for the three non-greedy span
patterns: spans are removed, unmatched characters are kept. -/
def rmSpans : Nat → Char → Char → List Char → List Char
  | 0, _, _, l => l
  | _, _, _, [] => []
  | fuel + 1, opn, close, c :: rest =>
    if c = opn then
      match scanSpan close rest with
      | some (_, rest') => rmSpans fuel opn close rest'
      | none => c :: rmSpans fuel opn close rest
    else c :: rmSpans fuel opn close rest

/-- Python `re.sub(r'\[.*?\]', '', s)` and its parenthesis/brace variants. -/
def removeSpans (opn close : Char) (l : List Char) : List Char :=
  rmSpans (l.length + 1) opn close l

/-! ### `parse_bracket_info` (main_CLI.py lines 8-35, main_GUI.py lines 204-218)

Both front-ends run the same per-segment logic; the GUI version only wraps the
`int` conversions in a `try` that cannot fire for ASCII-digit segments. -/

/-- Two-digit decimal value of the characters at positions `off` and `off+1`,
modelling `int(segment[off:off+2])` on an all-digit segment. -/
def twoDigitAt (s : String) (off : Nat) : Nat :=
  digitVal (s.data.getD off '0') * 10 + digitVal (s.data.getD (off + 1) '0')

/-- The per-segment loop of `parse_bracket_info`, carrying the
`(expected_date, expected_producer)` accumulators. -/
def pbiGo : List String → String → String → String × String
  | [], d, p => (d, p)
  | seg :: rest, d, p =>
    let segment := pyStrip seg
    if pyIsDigitStr segment ∧ segment.length = 6 then
      let mm := twoDigitAt segment 2
      let dd := twoDigitAt segment 4
      if 1 ≤ mm ∧ mm ≤ 12 ∧ 1 ≤ dd ∧ dd ≤ 31 then
        pbiGo rest segment p
      else
        pbiGo rest d p
    else if 3 ≤ segment.length ∧ ¬(pyIsDigitStr segment ∧ 6 < segment.length) ∧ p = "" then
      pbiGo rest d segment
    else
      pbiGo rest d p

/-- Extracts the expected release date and expected producer from the folder
name's bracketed segments, returning `(expected_date, expected_producer)`. -/
def parse_bracket_info (folder_name : String) : String × String :=
  pbiGo (findBracketSpans folder_name.data) "" ""

/-! ### `parse_folder_name` (main_CLI.py lines 38-53, main_GUI.py lines 198-202)

The CLI version additionally splits at the first `+` of the cleaned string;
the GUI version does not. -/

/-- The cleaned string both versions build: bracketed, parenthesized and braced
spans removed, then stripped. -/
def cleanedTitle (folder_name : String) : String :=
  pyStrip (String.mk (removeSpans '\x7b' '\x7d'
    (removeSpans '(' ')' (removeSpans '[' ']' folder_name.data))))

/-- CLI `parse_folder_name`: returns the `(title, release)` pair of the
dictionary the source builds (`release` is always the empty string). -/
def parse_folder_name (folder_name : String) : String × String :=
  let cleaned := cleanedTitle folder_name
  if '+' ∈ cleaned.data then
    (pyStrip (String.mk (cleaned.data.takeWhile (fun c => c ≠ '+'))), "")
  else
    (cleaned, "")

/-- GUI `parse_folder_name`: same span removal and strip, no `+` handling. -/
def parse_folder_name_GUI (folder_name : String) : String × String :=
  (cleanedTitle folder_name, "")

/-! ### `difflib.SequenceMatcher(None, a, b).ratio()`

The sources compute every similarity with `difflib.SequenceMatcher(None, _,
_).ratio()`.  The model below follows CPython's `difflib` with `isjunk=None`:
`__chain_b` builds `b2j` (with the autojunk rule discarding elements occurring
more than `len(b)//100 + 1` times when `len(b) >= 200`), `find_longest_match`
runs the row dynamic program and then the two non-junk extension loops (the
junk-set is empty with `isjunk=None`, so its two loops never fire and are not
embedded), and `ratio` sums the matched block sizes of `get_matching_blocks`
(the return value `2*matches/(len(a)+len(b))`, or `1.0` on two empty inputs,
is taken over `ℚ`). -/

/-- The index list `b2j[c]` of CPython's `__chain_b`: positions of `c` in `b`,
emptied by the autojunk rule for popular elements of a long `b`. -/
def b2j (b : List Char) (c : Char) : List Nat :=
  let idxs := (List.range b.length).filter (fun j => b.get? j = some c)
  if 200 ≤ b.length ∧ b.length / 100 + 1 < idxs.length then [] else idxs

/-- Inner loop of `find_longest_match` for one row `i`: walks `b2j[a[i]]`,
skipping `j < blo`, breaking at `j ≥ bhi`, extending run lengths from the
previous row's `j2len` into `newj2len` and tracking the best block. -/
def flmRow (j2len : Nat → Nat) (i blo bhi : Nat) :
    List Nat → (Nat → Nat) → Nat × Nat × Nat → (Nat → Nat) × (Nat × Nat × Nat)
  | [], newj2len, best => (newj2len, best)
  | j :: js, newj2len, best =>
    if j < blo then flmRow j2len i blo bhi js newj2len best
    else if bhi ≤ j then (newj2len, best)
    else
      let k := (if j = 0 then 0 else j2len (j - 1)) + 1
      let newj2len' := fun j' => if j' = j then k else newj2len j'
      let best' := if best.2.2 < k then (i + 1 - k, j + 1 - k, k) else best
      flmRow j2len i blo bhi js newj2len' best'

/-- Outer loop of `find_longest_match` over the rows `i = alo, ..., ahi-1`
(`n` rows remaining, current row `i`). -/
def flmRows (a b : List Char) (blo bhi : Nat) :
    Nat → Nat → (Nat → Nat) → Nat × Nat × Nat → Nat × Nat × Nat
  | 0, _, _, best => best
  | n + 1, i, j2len, best =>
    let step := flmRow j2len i blo bhi (b2j b (a.getD i ' ')) (fun _ => 0) best
    flmRows a b blo bhi n (i + 1) step.1 step.2

/-- Equality of two optionally-present characters (an out-of-range index never
compares equal, matching that the source only compares in-range indices). -/
def charsEq : Option Char → Option Char → Bool
  | some x, some y => x = y
  | _, _ => false

/-- The left extension loop of `find_longest_match` (fuel `besti` suffices:
it reaches 0 exactly when the `besti > alo` guard must fail). -/
def extendLeft (a b : List Char) (alo blo : Nat) :
    Nat → Nat × Nat × Nat → Nat × Nat × Nat
  | 0, best => best
  | fuel + 1, (i, j, k) =>
    if alo < i ∧ blo < j ∧ charsEq (a.get? (i - 1)) (b.get? (j - 1)) then
      extendLeft a b alo blo fuel (i - 1, j - 1, k + 1)
    else
      (i, j, k)

/-- The right extension loop of `find_longest_match` (fuel `ahi` suffices). -/
def extendRight (a b : List Char) (ahi bhi : Nat) :
    Nat → Nat × Nat × Nat → Nat × Nat × Nat
  | 0, best => best
  | fuel + 1, (i, j, k) =>
    if i + k < ahi ∧ j + k < bhi ∧ charsEq (a.get? (i + k)) (b.get? (j + k)) then
      extendRight a b ahi bhi fuel (i, j, k + 1)
    else
      (i, j, k)

/-- CPython's `find_longest_match(alo, ahi, blo, bhi)` with `isjunk=None`. -/
def findLongestMatch (a b : List Char) (alo ahi blo bhi : Nat) : Nat × Nat × Nat :=
  let best := flmRows a b blo bhi (ahi - alo) alo (fun _ => 0) (alo, blo, 0)
  let best := extendLeft a b alo blo best.1 best
  extendRight a b ahi bhi ahi best

/-- Total size of the matching blocks found by `get_matching_blocks`'s
divide-and-conquer over windows, which is all `ratio` consumes (the block
list's order, adjacency merging and `(la, lb, 0)` terminator do not change
the sum).  Fuel `la + lb + 1` suffices: every sub-window is strictly
smaller. -/
def matchSum (a b : List Char) : Nat → Nat → Nat → Nat → Nat → Nat
  | 0, _, _, _, _ => 0
  | fuel + 1, alo, ahi, blo, bhi =>
    let m := findLongestMatch a b alo ahi blo bhi
    let i := m.1
    let j := m.2.1
    let k := m.2.2
    if k = 0 then 0
    else
      (if alo < i ∧ blo < j then matchSum a b fuel alo i blo j else 0) + k +
      (if i + k < ahi ∧ j + k < bhi then matchSum a b fuel (i + k) ahi (j + k) bhi else 0)

/-- Total matched size over the whole strings. -/
def matchesTotal (a b : List Char) : Nat :=
  matchSum a b (a.length + b.length + 1) 0 a.length 0 b.length

/-- The `ratio()` value `2*M/T` (or `1.0` when both strings are empty),
over `ℚ`. -/
def ratio (a b : String) : ℚ :=
  let la := a.data.length
  let lb := b.data.length
  if la + lb = 0 then 1
  else 2 * (matchesTotal a.data b.data : ℚ) / (la + lb)

/-! ### `format_release_date` (main_CLI.py lines 241-250, `fmt` in main_GUI.py)

This is `datetime.strptime(s, "%Y-%m-%d")` followed by `strftime("%y%m%d")`,
with any failure mapped to `"Unknown"`.  `strptime`'s `%Y` matches exactly four
digits; `%m` matches `1[0-2]|0[1-9]|[1-9]` and `%d` matches
`3[01]|[12]\d|0[1-9]|[1-9]` (two-digit alternatives first; because each
field is followed by a non-digit, the regex's backtracking never has to
revisit a committed two-digit alternative); the whole string must be
consumed, and `datetime` itself then requires a year of at least 1 and a
calendar-valid day for the month. -/

/-- Parse exactly four decimal digits. -/
def parse4Y : List Char → Option (Nat × List Char)
  | c1 :: c2 :: c3 :: c4 :: rest =>
    if isDigitCh c1 ∧ isDigitCh c2 ∧ isDigitCh c3 ∧ isDigitCh c4 then
      some (digitVal c1 * 1000 + digitVal c2 * 100 + digitVal c3 * 10 + digitVal c4, rest)
    else none
  | _ => none

/-- Parse `%m` (the pattern `1[0-2]|0[1-9]|[1-9]`). -/
def parseMonth : List Char → Option (Nat × List Char)
  | '1' :: c :: rest =>
    if 48 ≤ c.toNat ∧ c.toNat ≤ 50 then some (10 + digitVal c, rest) else some (1, c :: rest)
  | '0' :: c :: rest =>
    if 49 ≤ c.toNat ∧ c.toNat ≤ 57 then some (digitVal c, rest) else none
  | c :: rest =>
    if 49 ≤ c.toNat ∧ c.toNat ≤ 57 then some (digitVal c, rest) else none
  | [] => none

/-- Parse `%d` (the pattern `3[01]|[12]\d|0[1-9]|[1-9]`). -/
def parseDay : List Char → Option (Nat × List Char)
  | '3' :: c :: rest =>
    if c = '0' ∨ c = '1' then some (30 + digitVal c, rest) else some (3, c :: rest)
  | '1' :: c :: rest =>
    if isDigitCh c then some (10 + digitVal c, rest) else some (1, c :: rest)
  | '2' :: c :: rest =>
    if isDigitCh c then some (20 + digitVal c, rest) else some (2, c :: rest)
  | '0' :: c :: rest =>
    if 49 ≤ c.toNat ∧ c.toNat ≤ 57 then some (digitVal c, rest) else none
  | c :: rest =>
    if 49 ≤ c.toNat ∧ c.toNat ≤ 57 then some (digitVal c, rest) else none
  | [] => none

/-- Gregorian leap-year rule, as `datetime` uses. -/
def isLeap (y : Nat) : Bool :=
  y % 4 = 0 ∧ (y % 100 ≠ 0 ∨ y % 400 = 0)

/-- Number of days of month `m` in year `y` (`m` between 1 and 12). -/
def daysInMonth (y m : Nat) : Nat :=
  if m = 2 then (if isLeap y then 29 else 28)
  else if m = 4 ∨ m = 6 ∨ m = 9 ∨ m = 11 then 30
  else 31

/-- The result of `datetime.strptime(s, "%Y-%m-%d")`: the `(year, month,
day)` triple, or `none` on any `ValueError`. -/
def parseISO (s : String) : Option (Nat × Nat × Nat) :=
  match parse4Y s.data with
  | some (y, '-' :: r1) =>
    match parseMonth r1 with
    | some (m, '-' :: r2) =>
      match parseDay r2 with
      | some (d, []) =>
        if 1 ≤ y ∧ d ≤ daysInMonth y m then some (y, m, d) else none
      | _ => none
    | _ => none
  | _ => none

/-- Zero-padded two-digit decimal rendering (for values below 100, as
produced by `%y`, `%m` and `%d`). -/
def twoDigitChars (n : Nat) : List Char :=
  if n < 10 then ['0', digitChr n] else [digitChr (n / 10), digitChr (n % 10)]

/-- Formats a `YYYY-MM-DD` release date string as `YYMMDD`, or `"Unknown"`
if parsing fails. -/
def format_release_date (s : String) : String :=
  match parseISO s with
  | some (y, m, d) =>
    String.mk (twoDigitChars (y % 100) ++ twoDigitChars m ++ twoDigitChars d)
  | none => "Unknown"

/-! ### Data model of catalog responses

Structures mirror the dictionary shapes the sources read.  A field read with
`.get(key, default)` or guarded by truthiness is an `Option` (`none` covers
both a missing key and a JSON `null`).  The CLI's defensive
`isinstance(devs[0], dict)` branch for a non-dictionary developer entry is
not modelled: the developers list is a list of records. -/

/-- One `{name, developer}` producer/developer record. -/
structure PyProducer where
  name : Option String
  developer : Option Bool
deriving DecidableEq, Repr

/-- One `{title}` entry of a VN's `titles` list (GUI only). -/
structure TitleEntry where
  title : Option String
deriving DecidableEq, Repr

/-- A VN record as returned by the `/kana/vn` search (the fields the scoring
and naming code reads; presentation-only fields are omitted). -/
structure Candidate where
  title : Option String
  titles : List TitleEntry
  released : Option String
  developers : List PyProducer
  length : Option Nat
deriving DecidableEq, Repr

/-- A release record as returned by the `/kana/release` lookup. -/
structure ReleaseInfo where
  title : Option String
  released : Option String
  producers : List PyProducer
  official : Option Bool
deriving DecidableEq, Repr

/-! ### `get_vn_candidates` (main_CLI.py lines 56-128, main_GUI.py lines 231-271)

The HTTP call and JSON decoding are replaced by an `Option (List Candidate)`
parameter: `none` stands for every recovered failure (request exception,
non-2xx status, JSON error, missing or ill-typed `results`), on which both
versions return `[]`.  Python's `list.sort(key=..., reverse=True)` is a
stable descending sort; it is modelled with `List.insertionSort` under the
relation `p.2 ≥ q.2` (Mathlib's `orderedInsert` places a later element after
every earlier element of equal key, exactly the stable behavior). -/

/-- GUI helper `normalize_string`: `re.sub(r'\W+', '', s).lower()`.  Word
characters are modelled on the ASCII range (letters, digits, underscore);
Python's `\w` additionally keeps non-ASCII word characters, which no claim
depends on. -/
def normalize_string (s : String) : String :=
  pyLower (String.mk (s.data.filter (fun c => c.isAlphanum ∨ c = '_')))

/-- The CLI's title sub-score: similarity of the lowercased query to the
lowercased primary title. -/
def titleScoreCLI (q : String) (c : Candidate) : ℚ :=
  ratio (pyLower q) (pyLower (c.title.getD ""))

/-- The CLI's `candidate_date` local: the candidate's release date
reformatted to `YYMMDD`, or the empty string when absent. -/
def candidateDateCLI (c : Candidate) : String :=
  if truthyStr c.released then format_release_date (c.released.getD "") else ""

/-- The `candidate_producer`/`devname` local of both scorers: the
first-listed developer's name, or the empty string. -/
def firstDevName (c : Candidate) : String :=
  match c.developers.head? with
  | some d => d.name.getD ""
  | none => ""

/-- The CLI's date sub-score: the candidate's release date reformatted to
`YYMMDD` is compared with the expected `YYMMDD` date; if either side is
missing the neutral value `0.5` is used. -/
def dateScoreCLI (ed : String) (c : Candidate) : ℚ :=
  if ed ≠ "" ∧ candidateDateCLI c ≠ "" then ratio ed (candidateDateCLI c) else 1 / 2

/-- The CLI's producer sub-score: lowercased comparison of the expected
producer with the first-listed developer's name, else `0.5`. -/
def prodScoreCLI (ep : String) (c : Candidate) : ℚ :=
  if ep ≠ "" ∧ firstDevName c ≠ "" then
    ratio (pyLower ep) (pyLower (firstDevName c))
  else 1 / 2

/-- The CLI's composite confidence for one candidate. -/
def confCLI (q ed ep : String) (c : Candidate) : ℚ :=
  (titleScoreCLI q c + dateScoreCLI ed c + prodScoreCLI ep c) / 3

/-- The CLI's `candidates_with_conf` list before sorting. -/
def scoreAllCLI (q ed ep : String) (results : List Candidate) : List (Candidate × ℚ) :=
  results.map (fun c => (c, confCLI q ed ep c))

/-- Descending stable sort by confidence (`list.sort(key=lambda x: x[1],
reverse=True)`). -/
def sortByConfDesc (l : List (Candidate × ℚ)) : List (Candidate × ℚ) :=
  l.insertionSort (fun p q => q.2 ≤ p.2)

/-- CLI `get_vn_candidates`: scores each returned candidate and returns up to
three `(candidate, confidence)` pairs, best first. -/
def get_vn_candidates (searchResults : Option (List Candidate)) (q ed ep : String) :
    List (Candidate × ℚ) :=
  match searchResults with
  | none => []
  | some results =>
    if results.isEmpty then []
    else (sortByConfDesc (scoreAllCLI q ed ep results)).take 3

/-- The GUI's title sub-score: the maximum of the primary-title similarity and
the similarities over every localized title. -/
def titleScoreGUI (q : String) (c : Candidate) : ℚ :=
  let sim_romaji := ratio (pyLower q) (pyLower (c.title.getD ""))
  let sim_jp := c.titles.foldl
    (fun acc t => max acc (ratio (pyLower q) (pyLower (t.title.getD "")))) 0
  max sim_romaji sim_jp

/-- The GUI's `norm` local: a 6-digit expected date rewritten to
`20YY-MM-DD`, other expected dates kept as-is. -/
def normExpectedGUI (ed : String) : String :=
  if ed.length = 6 ∧ pyIsDigitStr ed then
    "20" ++ String.mk (ed.data.take 2) ++ "-" ++
    String.mk ((ed.data.drop 2).take 2) ++ "-" ++ String.mk (ed.data.drop 4)
  else ed

/-- The GUI's date sub-score: a 6-digit expected date is first rewritten to
`20YY-MM-DD` and then compared with the raw ISO release string. -/
def dateScoreGUI (ed : String) (c : Candidate) : ℚ :=
  if ed ≠ "" ∧ truthyStr c.released then ratio (normExpectedGUI ed) (c.released.getD "")
  else 1 / 2

/-- The GUI's producer sub-score, over `normalize_string`-normalized names. -/
def prodScoreGUI (ep : String) (c : Candidate) : ℚ :=
  if ep ≠ "" ∧ firstDevName c ≠ "" then
    ratio (normalize_string ep) (normalize_string (firstDevName c))
  else 1 / 2

/-- The GUI's composite confidence (`cand["match"]`). -/
def confGUI (q ed ep : String) (c : Candidate) : ℚ :=
  (titleScoreGUI q c + dateScoreGUI ed c + prodScoreGUI ep c) / 3

/-- The GUI's scored list before sorting. -/
def scoreAllGUI (q ed ep : String) (results : List Candidate) : List (Candidate × ℚ) :=
  results.map (fun c => (c, confGUI q ed ep c))

/-- GUI `get_vn_candidates`: scores, sorts descending and truncates to
`candidate_limit`. -/
def get_vn_candidates_GUI (searchResults : Option (List Candidate)) (q ed ep : String)
    (candidate_limit : Nat) : List (Candidate × ℚ) :=
  match searchResults with
  | none => []
  | some results =>
    (sortByConfDesc (scoreAllGUI q ed ep results)).take candidate_limit

/-! ### Content flag detectors (main_CLI.py lines 253-306) and the combined
fandisc flag of `main` (main_CLI.py lines 467-479)

`os.listdir(folder_path)` becomes an `Except Unit (List String)` parameter;
the sources catch any listing exception (`.error`) and treat it as "no
evidence". -/

/-- Keyword test: `any(kw in s.lower() for kw in kws)`. -/
def kwHit (kws : List String) (s : String) : Bool :=
  kws.any (fun kw => pyContains (pyLower s) kw)

/-- The OST keyword list. -/
def ostKeywords : List String :=
  ["ost", "soundtrack", "オリジナルサウンドトラック"]

/-- The fandisc keyword list. -/
def fandiscKeywords : List String :=
  ["fandisc", "fan disc", "ファンディスク"]

/-- Detects an included OST: the `♫` glyph in the folder name, else keywords
in the folder name, the release title, or any file name of the folder. -/
def detect_ost (files : Except Unit (List String)) (folder_name : String)
    (release_info : Option ReleaseInfo) : Bool :=
  if pyContains folder_name "♫" then true
  else if kwHit ostKeywords folder_name then true
  else if (match release_info with
           | some r => r.title.isSome && kwHit ostKeywords (r.title.getD "")
           | none => false) then true
  else match files with
       | .ok names => names.any (kwHit ostKeywords)
       | .error _ => false

/-- Checks whether the release title or the folder name indicates a fandisc. -/
def detect_fandisc_api (release_info : Option ReleaseInfo) (folder_name : String) : Bool :=
  (match release_info with
   | some r => r.title.isSome && kwHit fandiscKeywords (r.title.getD "")
   | none => false) ||
  kwHit fandiscKeywords folder_name

/-- Scans the folder's file names for fandisc keywords. -/
def detect_fandisc_physical (files : Except Unit (List String)) : Bool :=
  match files with
  | .ok names => names.any (kwHit fandiscKeywords)
  | .error _ => false

/-- The fandisc flag `main` attaches: `★` when the API indicates a fandisc and
a physical file confirms it, `☆` when only the API does, empty otherwise. -/
def fandisc_flag (api_has_fandisc physical_fandisc : Bool) : String :=
  if api_has_fandisc then
    (if physical_fandisc then "★" else "☆")
  else ""

/-! ### The `str.format` model and `suggest_new_folder_name`
(main_CLI.py lines 321-385, main_GUI.py lines 293-333)

`custom_template.format(producer=..., release_date=..., length=..., title=...,
flags=..., tags=...)` is modelled by a scanner over the template: `{{`/`}}`
are literal braces, a lone `}` is a `ValueError`, `{` opens a replacement
field whose name runs to the first `}`, `!` or `:`.  An empty or numeric
field name is an `IndexError` (auto-numbering/positional lookup with no
positional arguments); a conversion, format spec or attribute/index access
on a known key is outside the needs of this code base and is mapped to a
distinguished error; an unknown keyword raises `KeyError(name)`.  The CLI
does not catch these exceptions (modelled by `Except`); the GUI catches
exactly `KeyError` and returns an error-message string instead. -/

/-- The Python exceptions the format model distinguishes. -/
inductive PyErr where
  | keyError (key : String)
  | valueError (msg : String)
  | indexError (msg : String)
  | otherError (msg : String)
deriving DecidableEq, Repr

/-- Splits a replacement field at its terminator: returns the field text, the
terminator (`}`, `!` or `:`) and the remaining input, or `none` if the
input ends first. -/
def splitField : List Char → Option (List Char × Char × List Char)
  | [] => none
  | c :: rest =>
    if c = '\x7d' ∨ c = '!' ∨ c = ':' then some ([], c, rest)
    else
      match splitField rest with
      | some (nm, t, r) => some (c :: nm, t, r)
      | none => none

/-- One step of the format scan on a replacement field body. -/
def fsField (env : List (String × String)) (nm : List Char) (term : Char) :
    Except PyErr (String × Bool) :=
  let nameS := String.mk nm
  let base := String.mk (nm.takeWhile (fun c => c ≠ '.' ∧ c ≠ '['))
  if base = "" ∨ pyIsDigitStr base then
    .error (.indexError "Replacement index out of range")
  else
    match (env.find? (fun e => e.1 = base)).map (fun e => e.2) with
    | none => .error (.keyError base)
    | some v =>
      if term = '\x7d' ∧ base = nameS then .ok (v, true)
      else .error (.otherError "conversion, format spec or attribute access")

/-- Fueled format scanner (fuel `> length` suffices; each step consumes at
least one character). -/
def fsAux (env : List (String × String)) : Nat → List Char → Except PyErr (List Char)
  | 0, l => .ok l
  | _, [] => .ok []
  | fuel + 1, c :: rest =>
    if c = '\x7d' then
      match rest with
      | d :: rest' =>
        if d = '\x7d' then (fsAux env fuel rest').map (fun t => '\x7d' :: t)
        else .error (.valueError "Single rbrace encountered in format string")
      | [] => .error (.valueError "Single rbrace encountered in format string")
    else if c = '\x7b' then
      match rest with
      | d :: rest' =>
        if d = '\x7b' then (fsAux env fuel rest').map (fun t => '\x7b' :: t)
        else
          match splitField rest with
          | none => .error (.valueError "Single lbrace encountered in format string")
          | some (nm, term, r) =>
            match fsField env nm term with
            | .error e => .error e
            | .ok (v, _) => (fsAux env fuel r).map (fun t => v.data ++ t)
      | [] => .error (.valueError "Single lbrace encountered in format string")
    else
      (fsAux env fuel rest).map (fun t => c :: t)

/-- Python `template.format(**env)` for string-valued keyword arguments. -/
def pyFormat (env : List (String × String)) (template : String) : Except PyErr String :=
  (fsAux env (template.data.length + 1) template.data).map String.mk

/-- Producer resolution lines of `suggest_new_folder_name`: a release producer
flagged as developer, else the first release producer, else the VN's first
developer, else `"Unknown Producer"`. -/
def resolveProducer (vn_info : Candidate) (release_info : Option ReleaseInfo) : String :=
  let producers := match release_info with
    | some r => r.producers
    | none => []
  match producers with
  | p0 :: _ =>
    match producers.find? (fun p => p.developer = some true) with
    | some p => p.name.getD "Unknown Producer"
    | none => p0.name.getD "Unknown Producer"
  | [] =>
    match vn_info.developers.head? with
    | some d => d.name.getD "Unknown Producer"
    | none => "Unknown Producer"

/-- The `release_date_str` local of `suggest_new_folder_name`: the release
record's date if truthy, else the VN's own date. -/
def resolveDateStr (vn_info : Candidate) (release_info : Option ReleaseInfo) : Option String :=
  match release_info with
  | some r => if truthyStr r.released then r.released else vn_info.released
  | none => vn_info.released

/-- Formatting of the resolved date string: `"Unknown"` when absent or empty,
else `format_release_date`. -/
def fmtDateOpt : Option String → String
  | some s => if s = "" then "Unknown" else format_release_date s
  | none => "Unknown"

/-- Date resolution lines: the release record's date if truthy, else the VN's
own date, formatted to `YYMMDD`, with `"Unknown"` when absent or unparsable. -/
def resolveFormattedDate (vn_info : Candidate) (release_info : Option ReleaseInfo) : String :=
  fmtDateOpt (resolveDateStr vn_info release_info)

/-- The `[L{n}]` length token (empty when the VN has no length value). -/
def lengthToken (vn_info : Candidate) : String :=
  match vn_info.length with
  | some n => "[L" ++ natStr n ++ "]"
  | none => ""

/-- The default-template rendering of the suggested name. -/
def defaultName (producer formatted_date length_str title flags : String)
    (optional_tags : Option String) : String :=
  let n := "[" ++ producer ++ "][" ++ formatted_date ++ "]" ++ length_str ++ " " ++ title
  let n := if flags ≠ "" then n ++ " \x7b" ++ flags ++ "\x7d" else n
  if truthyStr optional_tags then n ++ " (" ++ optional_tags.getD "" ++ ")" else n

/-- The `flags` local of the CLI's `suggest_new_folder_name`: the stripped
optional flags, or the empty string when absent/empty. -/
def flagsComputed : Option String → String
  | some f => if f ≠ "" then pyStrip f else ""
  | none => ""

/-- The keyword-argument environment both sources pass to `format`. -/
def stdEnv (producer formatted_date length_str title flags tags : String) :
    List (String × String) :=
  [("producer", producer), ("release_date", formatted_date), ("length", length_str),
   ("title", title), ("flags", flags), ("tags", tags)]

/-- CLI `suggest_new_folder_name`.  The result is an `Except` because the CLI
does not catch the exceptions `str.format` can raise on a custom template;
the default-template path always succeeds. -/
def suggest_new_folder_name (vn_info : Candidate) (release_info : Option ReleaseInfo)
    (optional_flags optional_tags : Option String) (custom_template : Option String) :
    Except PyErr String :=
  let producer := resolveProducer vn_info release_info
  let formatted_date := resolveFormattedDate vn_info release_info
  let length_str := lengthToken vn_info
  let title := vn_info.title.getD "Unknown Title"
  let flags := flagsComputed optional_flags
  if truthyStr custom_template then
    pyFormat
      (stdEnv producer formatted_date length_str title flags
        (if truthyStr optional_tags then optional_tags.getD "" else ""))
      (custom_template.getD "")
  else
    .ok (defaultName producer formatted_date length_str title flags optional_tags)

/-- Fueled core of the GUI's `re.sub(r"\(\s*\)", "", name)`: an opening
parenthesis followed by whitespace and a closing parenthesis is removed. -/
def repAux : Nat → List Char → List Char
  | 0, l => l
  | _, [] => []
  | fuel + 1, c :: rest =>
    if c = '(' then
      let rest2 := rest.dropWhile pyIsSpace
      match rest2 with
      | ')' :: rest3 => repAux fuel rest3
      | _ => c :: repAux fuel rest
    else c :: repAux fuel rest

/-- GUI post-processing of a custom-template result: strip `"( )"` pairs,
then strip whitespace. -/
def removeEmptyParens (s : String) : String :=
  pyStrip (String.mk (repAux (s.data.length + 1) s.data))

/-- GUI `suggest_new_folder_name`.  Only `KeyError` is caught (returning an
error-message string, `str(KeyError(k))` being the quoted key); any other
format exception would propagate, hence the `Except` result. -/
def suggest_new_folder_name_GUI (vn_info : Candidate) (release_info : Option ReleaseInfo)
    (optional_flags optional_tags : Option String) (custom_template : Option String)
    (title_override : Option String) : Except PyErr String :=
  let producer := resolveProducer vn_info release_info
  let formatted_date := resolveFormattedDate vn_info release_info
  let length_str := lengthToken vn_info
  let title_str := if truthyStr title_override then title_override.getD ""
    else vn_info.title.getD "Unknown Title"
  let flags_str := pyStrip (optional_flags.getD "")
  let tags_str := pyStrip (optional_tags.getD "")
  if truthyStr custom_template ∧ pyStrip (custom_template.getD "") ≠ "" then
    match pyFormat (stdEnv producer formatted_date length_str title_str flags_str tags_str)
        (custom_template.getD "") with
    | .ok name => .ok (removeEmptyParens name)
    | .error (.keyError k) => .ok ("Error: missing placeholder \x27" ++ k ++ "\x27")
    | .error e => .error e
  else
    .ok (defaultName producer formatted_date length_str title_str flags_str
      (if tags_str ≠ "" then some tags_str else none))

/-! ### Specification-side definitions and auxiliary predicates -/

/-- A trimmed bracket segment that the date branch of `parse_bracket_info`
accepts: exactly six digits whose month part is 1-12 and day part is 1-31. -/
def isValidDateSeg (s : String) : Bool :=
  pyIsDigitStr s ∧ s.length = 6 ∧
  1 ≤ twoDigitAt s 2 ∧ twoDigitAt s 2 ≤ 12 ∧ 1 ≤ twoDigitAt s 4 ∧ twoDigitAt s 4 ≤ 31

/-- Modelled from the spec: the claimed date sub-score — "if both
`expectedDate` (YYMMDD) and the candidate's release date are present, convert
the candidate's ISO date to YYMMDD and compute the same character-sequence
similarity ratio; otherwise use the neutral value 0.5". -/
def dateScoreSpec (ed : String) (released : Option String) : ℚ :=
  if ed ≠ "" ∧ truthyStr released then ratio ed (format_release_date (released.getD ""))
  else 1 / 2

/-- Modelled from the amended wording for the GUI: when both dates are
present, the 6-digit expected date is rewritten to ISO `20YY-MM-DD` form and
compared against the raw ISO release string; otherwise 0.5. -/
def dateScoreGUIAmended (ed : String) (released : Option String) : ℚ :=
  if ed ≠ "" ∧ truthyStr released then ratio (normExpectedGUI ed) (released.getD "")
  else 1 / 2

/-- Fueled extractor of a template's replacement-field names, running in
lockstep with `fsAux`: returns the ordered field names when the template is
well-formed and every field is a plain keyword (terminator `}`; name
non-empty, not numeric, no attribute/index access), and `none` otherwise. -/
def tfAux : Nat → List Char → Option (List String)
  | 0, _ => some []
  | _, [] => some []
  | fuel + 1, c :: rest =>
    if c = '\x7d' then
      match rest with
      | d :: rest' => if d = '\x7d' then tfAux fuel rest' else none
      | [] => none
    else if c = '\x7b' then
      match rest with
      | d :: rest' =>
        if d = '\x7b' then tfAux fuel rest'
        else
          match splitField rest with
          | none => none
          | some (nm, term, r) =>
            if term = '\x7d' ∧ String.mk nm ≠ "" ∧ ¬(pyIsDigitStr (String.mk nm)) ∧
                nm.all (fun ch => ch ≠ '.' ∧ ch ≠ '[') then
              (tfAux fuel r).map (fun fs => String.mk nm :: fs)
            else none
      | [] => none
    else tfAux fuel rest

/-- The replacement-field names of a plain well-formed template. -/
def templateFields (t : String) : Option (List String) :=
  tfAux (t.data.length + 1) t.data

/-- The placeholder names recognized by both synthesizers. -/
def knownPlaceholders : List String :=
  ["producer", "release_date", "length", "title", "flags", "tags"]

/-! ### Concrete records used by witnesses and counterexamples -/

/-- A minimal candidate whose title equals the query used in the scoring
witness. -/
def candAB : Candidate :=
  { title := some "ab", titles := [], released := none, developers := [], length := none }

/-- A candidate carrying only a release date, for the date-score
counterexample. -/
def candJan : Candidate :=
  { title := some "", titles := [], released := some "2024-01-01",
    developers := [], length := none }

/-- A VN record whose own title contains a bracketed valid date, defeating the
round-trip. -/
def vnBracketTitle : Candidate :=
  { title := some "Foo [991231]", titles := [], released := some "2023-12-15",
    developers := [{ name := some "TYPE-MOON", developer := some true }], length := none }

/-- The Fate/Stay record of the specification's synthesizer example (the
title is kept bracket-free for the round-trip witness). -/
def vnFate : Candidate :=
  { title := some "Fate Stay", titles := [], released := some "2004-01-29",
    developers := [{ name := some "TYPE-MOON", developer := some true }], length := some 40 }

/-- Window-validity of a `(besti, bestj, bestsize)` triple of
`find_longest_match`: the block lies inside the `[alo, ahi) × [blo, bhi)`
window. -/
def flmBestOK (alo ahi blo bhi : Nat) (t : Nat × Nat × Nat) : Prop :=
  alo ≤ t.1 ∧ t.1 + t.2.2 ≤ ahi ∧ blo ≤ t.2.1 ∧ t.2.1 + t.2.2 ≤ bhi

/-- Invariant of the `j2len` map before processing row `r`: every recorded
run fits in the rows processed so far and in the window's columns. -/
def j2lenOK (alo blo bhi r : Nat) (f : Nat → Nat) : Prop :=
  ∀ j, f j ≤ r - alo ∧ (f j ≠ 0 → blo ≤ j ∧ j < bhi ∧ f j + blo ≤ j + 1)

/-! ## Theorems -/

/-! ### Character and strip facts -/

theorem digit_not_space {c : Char} (h : isDigitCh c = true) : pyIsSpace c = false := by
  simp only [isDigitCh, decide_eq_true_eq] at h
  simp only [pyIsSpace, List.mem_cons, List.not_mem_nil, or_false, decide_eq_false_iff_not]
  omega

theorem digit_ne_lbrack {c : Char} (h : isDigitCh c = true) : c ≠ '[' := by
  simp only [isDigitCh, decide_eq_true_eq] at h
  intro hc; subst hc; simp at h

theorem digit_ne_rbrack {c : Char} (h : isDigitCh c = true) : c ≠ ']' := by
  simp only [isDigitCh, decide_eq_true_eq] at h
  intro hc; subst hc; simp at h

theorem digit_ne_newline {c : Char} (h : isDigitCh c = true) : c ≠ '\n' := by
  simp only [isDigitCh, decide_eq_true_eq] at h
  intro hc; subst hc; simp at h

theorem dropWhile_eq_self_of_none {p : Char → Bool} :
    ∀ l : List Char, (∀ c ∈ l, p c = false) → l.dropWhile p = l := by
  intro l h
  cases l with
  | nil => rfl
  | cons c rest =>
    rw [List.dropWhile_cons, h c (by simp)]
    simp

theorem pyStripL_eq_self {l : List Char} (h : ∀ c ∈ l, pyIsSpace c = false) :
    pyStripL l = l := by
  unfold pyStripL
  rw [dropWhile_eq_self_of_none l h,
      dropWhile_eq_self_of_none l.reverse (by intro c hc; exact h c (List.mem_reverse.mp hc)),
      List.reverse_reverse]

theorem pyStrip_eq_self {s : String} (h : ∀ c ∈ s.data, pyIsSpace c = false) :
    pyStrip s = s := by
  unfold pyStrip
  rw [pyStripL_eq_self h]

theorem mem_pyStripL {c : Char} : ∀ {l : List Char}, c ∈ pyStripL l → c ∈ l := by
  intro l h
  unfold pyStripL at h
  rw [List.mem_reverse] at h
  have h1 := List.dropWhile_sublist (l := (l.dropWhile pyIsSpace).reverse) (p := pyIsSpace)
  have h2 := (h1.mem h)
  rw [List.mem_reverse] at h2
  exact (List.dropWhile_sublist (l := l) (p := pyIsSpace)).mem h2

theorem pyStrip_ne_empty {s : String} {c : Char} (hc : c ∈ s.data)
    (hns : pyIsSpace c = false) : pyStrip s ≠ "" := by
  have hmem : c ∈ pyStripL s.data := by
    unfold pyStripL
    rw [List.mem_reverse]
    have step : ∀ l : List Char, c ∈ l → c ∈ l.dropWhile pyIsSpace := by
      intro l
      induction l with
      | nil => intro h; exact absurd h (List.not_mem_nil c)
      | cons d rest ih =>
        intro h
        rw [List.dropWhile_cons]
        by_cases hd : pyIsSpace d
        · rw [hd]
          simp only [if_true]
          rcases List.mem_cons.mp h with rfl | h
          · rw [hd] at hns; exact absurd hns (by simp)
          · exact ih h
        · simp only [hd]
          simpa using h
    exact step _ (by rw [List.mem_reverse]; exact step _ hc)
  intro he
  have : pyStripL s.data = [] := by
    have := congrArg String.data (show pyStrip s = "" from he)
    simpa [pyStrip] using this
  rw [this] at hmem
  exact List.not_mem_nil c hmem

/-! ### Span-scanner facts -/

theorem scanSpan_append {close : Char} :
    ∀ (p t : List Char), close ∉ p → '\n' ∉ p →
      scanSpan close (p ++ close :: t) = some (p, t) := by
  intro p
  induction p with
  | nil =>
    intro t _ _
    simp [scanSpan]
  | cons c rest ih =>
    intro t hc hn
    have hc1 : c ≠ close := fun h => hc (by simp [h])
    have hn1 : c ≠ '\n' := fun h => hn (by simp [h])
    rw [List.cons_append]
    simp only [scanSpan, if_neg hc1, if_neg hn1, List.append_eq]
    rw [ih t (fun h => hc (by simp [h])) (fun h => hn (by simp [h]))]

theorem scanSpan_decomp {close : Char} :
    ∀ {l sp r : List Char}, scanSpan close l = some (sp, r) → l = sp ++ close :: r := by
  intro l
  induction l with
  | nil => intro sp r h; simp [scanSpan] at h
  | cons c rest ih =>
    intro sp r h
    by_cases hc : c = close
    · simp only [scanSpan, if_pos hc] at h
      obtain ⟨rfl, rfl⟩ := Prod.mk.injEq .. ▸ (Option.some.injEq .. ▸ h)
      simp [hc]
    · by_cases hn : c = '\n'
      · subst hn
        simp [scanSpan, hc] at h
      · simp only [scanSpan, if_neg hc, if_neg hn] at h
        cases hrec : scanSpan close rest with
        | none => rw [hrec] at h; exact absurd h (by simp)
        | some pr =>
          rw [hrec] at h
          obtain ⟨sp', r'⟩ := pr
          simp only [Option.some.injEq, Prod.mk.injEq] at h
          obtain ⟨h1, h2⟩ := h
          subst h2
          rw [← h1]
          simpa using ih hrec

theorem scanSpan_rest_length {close : Char} {l sp r : List Char}
    (h : scanSpan close l = some (sp, r)) : r.length < l.length := by
  have := scanSpan_decomp h
  subst this
  simp
  omega

theorem fbs_fuel_congr :
    ∀ (f₁ : Nat) (l : List Char) (f₂ : Nat), l.length < f₁ → l.length < f₂ →
      fbs f₁ l = fbs f₂ l := by
  intro f₁
  induction f₁ with
  | zero => intro l f₂ h; omega
  | succ f₁' ih =>
    intro l f₂ h1 h2
    cases l with
    | nil => cases f₂ with
      | zero => omega
      | succ f₂' => rfl
    | cons c rest =>
      cases f₂ with
      | zero => omega
      | succ f₂' =>
        simp only [fbs]
        by_cases hc : c = '['
        · rw [if_pos hc, if_pos hc]
          cases hscan : scanSpan ']' rest with
          | none =>
            have : rest.length < f₁' := by simp at h1; omega
            have h2' : rest.length < f₂' := by simp at h2; omega
            exact ih rest f₂' this h2'
          | some pr =>
            obtain ⟨sp, rest'⟩ := pr
            have hlen := scanSpan_rest_length hscan
            have : rest'.length < f₁' := by simp at h1; omega
            have h2' : rest'.length < f₂' := by simp at h2; omega
            show String.mk sp :: fbs f₁' rest' = String.mk sp :: fbs f₂' rest'
            rw [ih rest' f₂' this h2']
        · rw [if_neg hc, if_neg hc]
          have : rest.length < f₁' := by simp at h1; omega
          have h2' : rest.length < f₂' := by simp at h2; omega
          exact ih rest f₂' this h2'

theorem findBracketSpans_nil : findBracketSpans [] = [] := rfl

theorem findBracketSpans_cons_ne {c : Char} (hc : c ≠ '[') (l : List Char) :
    findBracketSpans (c :: l) = findBracketSpans l := by
  unfold findBracketSpans
  show fbs (l.length + 1 + 1) (c :: l) = fbs (l.length + 1) l
  simp only [fbs, if_neg hc]

theorem findBracketSpans_no_lb : ∀ {l : List Char}, '[' ∉ l → findBracketSpans l = [] := by
  intro l
  induction l with
  | nil => intro _; rfl
  | cons c rest ih =>
    intro h
    rw [findBracketSpans_cons_ne (fun hc => h (by simp [hc])) rest]
    exact ih (fun hc => h (by simp [hc]))

theorem findBracketSpans_append_no_lb :
    ∀ {s : List Char} (t : List Char), '[' ∉ s →
      findBracketSpans (s ++ t) = findBracketSpans t := by
  intro s
  induction s with
  | nil => intro t _; rfl
  | cons c rest ih =>
    intro t h
    rw [List.cons_append, findBracketSpans_cons_ne (fun hc => h (by simp [hc]))]
    exact ih t (fun hc => h (by simp [hc]))

theorem fbs_cons_open {fuel : Nat} {rest sp r : List Char}
    (h : scanSpan ']' rest = some (sp, r)) :
    fbs (fuel + 1) ('[' :: rest) = String.mk sp :: fbs fuel r := by
  simp [fbs, h]

theorem findBracketSpans_open {rest sp r : List Char}
    (h : scanSpan ']' rest = some (sp, r)) :
    findBracketSpans ('[' :: rest) = String.mk sp :: findBracketSpans r := by
  unfold findBracketSpans
  show fbs (rest.length + 1 + 1) ('[' :: rest) = _
  rw [fbs_cons_open h]
  have := scanSpan_rest_length h
  rw [fbs_fuel_congr (rest.length + 1) r (r.length + 1) (by omega) (by omega)]

theorem findBracketSpans_bracket {p : List Char} (t : List Char)
    (hr : ']' ∉ p) (hn : '\n' ∉ p) :
    findBracketSpans ('[' :: (p ++ ']' :: t)) = String.mk p :: findBracketSpans t :=
  findBracketSpans_open (scanSpan_append p t hr hn)

/-! ### Claim C6: the combined fandisc flag -/

/-- C6: with catalog evidence `api` (`detect_fandisc_api`) and physical
evidence `phys` (`detect_fandisc_physical`), the flag attached by `main` is
`★` iff both hold, `☆` iff only the catalog evidence holds, and empty iff the
catalog evidence is absent, whatever the physical evidence. -/
theorem fandisc_flag_policy (release_info : Option ReleaseInfo) (folder_name : String)
    (files : Except Unit (List String)) :
    (fandisc_flag (detect_fandisc_api release_info folder_name)
        (detect_fandisc_physical files) = "★" ↔
      detect_fandisc_api release_info folder_name = true ∧
      detect_fandisc_physical files = true) ∧
    (fandisc_flag (detect_fandisc_api release_info folder_name)
        (detect_fandisc_physical files) = "☆" ↔
      detect_fandisc_api release_info folder_name = true ∧
      detect_fandisc_physical files = false) ∧
    (fandisc_flag (detect_fandisc_api release_info folder_name)
        (detect_fandisc_physical files) = "" ↔
      detect_fandisc_api release_info folder_name = false) := by
  cases detect_fandisc_api release_info folder_name <;>
    cases detect_fandisc_physical files <;>
      refine ⟨?_, ?_, ?_⟩ <;> simp [fandisc_flag]

/-! ### Claim C10: the soundtrack glyph short-circuits `detect_ost` -/

/-- C10: whenever the raw folder name contains the glyph `♫`,
`detect_ost` returns `true`, for every state of the folder listing (including
a failing one) and every release record: the result depends on neither. -/
theorem detect_ost_glyph (files : Except Unit (List String)) (folder_name : String)
    (release_info : Option ReleaseInfo) (h : pyContains folder_name "♫" = true) :
    detect_ost files folder_name release_info = true := by
  unfold detect_ost
  rw [if_pos h]

/-- Witness for C10 at a concrete folder name, an unreadable folder listing
and no release record. -/
theorem detect_ost_glyph_witness :
    detect_ost (Except.error ()) "abc♫" none = true :=
  detect_ost_glyph (Except.error ()) "abc♫" none (by decide)

/-! ### Claims C1 and C2: the date branch of `parse_bracket_info` -/

theorem pbiGo_fst : ∀ (spans : List String) (d p : String),
    (pbiGo spans d p).1 =
      ((spans.map pyStrip).filter (fun s => isValidDateSeg s)).getLastD d := by
  intro spans
  induction spans with
  | nil => intro d p; rfl
  | cons seg rest ih =>
    intro d p
    simp only [pbiGo, List.map_cons, List.filter_cons]
    by_cases h1 : pyIsDigitStr (pyStrip seg) = true ∧ (pyStrip seg).length = 6
    · by_cases h2 : 1 ≤ twoDigitAt (pyStrip seg) 2 ∧ twoDigitAt (pyStrip seg) 2 ≤ 12 ∧
          1 ≤ twoDigitAt (pyStrip seg) 4 ∧ twoDigitAt (pyStrip seg) 4 ≤ 31
      · rw [if_pos ⟨h1.1, h1.2⟩, if_pos h2]
        have hv : isValidDateSeg (pyStrip seg) = true := by
          simp only [isValidDateSeg, Bool.decide_and, Bool.and_eq_true, decide_eq_true_eq]
          exact ⟨h1.1, h1.2, h2.1, h2.2.1, h2.2.2.1, h2.2.2.2⟩
        rw [hv]
        simp only [if_true]
        rw [ih, List.getLastD_cons]
      · rw [if_pos ⟨h1.1, h1.2⟩, if_neg h2]
        have hv : isValidDateSeg (pyStrip seg) = false := by
          simp only [isValidDateSeg, Bool.decide_and, Bool.and_eq_true, decide_eq_true_eq,
            Bool.not_eq_true] at h2 ⊢
          by_contra hc
          rw [Bool.not_eq_false] at hc
          simp only [Bool.decide_and, Bool.and_eq_true, decide_eq_true_eq] at hc
          exact h2 ⟨hc.2.2.1, hc.2.2.2.1, hc.2.2.2.2.1, hc.2.2.2.2.2⟩
        rw [hv]
        simp only [Bool.false_eq_true, if_false]
        exact ih d p
    · have hv : isValidDateSeg (pyStrip seg) = false := by
        simp only [not_and_or] at h1
        simp only [isValidDateSeg, Bool.decide_and, Bool.and_eq_true, decide_eq_true_eq]
        rcases h1 with h | h
        · simp [Bool.not_eq_true] at h
          simp [h]
        · simp only [Bool.and_eq_false_iff, decide_eq_false_iff_not]
          right; left; exact h
      rw [if_neg h1, hv]
      simp only [Bool.false_eq_true, if_false]
      by_cases h3 : 3 ≤ (pyStrip seg).length ∧
          ¬(pyIsDigitStr (pyStrip seg) = true ∧ 6 < (pyStrip seg).length) ∧ p = ""
      · rw [if_pos h3]; exact ih d (pyStrip seg)
      · rw [if_neg h3]; exact ih d p

/-- C1 (amended): the `expectedDate` returned by `parse_bracket_info` is the
LAST trimmed bracketed span that is exactly six digits with month 1-12 and
day 1-31 (or the empty string when there is none): a later valid span
overwrites an earlier one. -/
theorem parse_bracket_info_last_valid_date (folder_name : String) :
    (parse_bracket_info folder_name).1 =
      (((findBracketSpans folder_name.data).map pyStrip).filter
        (fun s => isValidDateSeg s)).getLastD "" :=
  pbiGo_fst (findBracketSpans folder_name.data) "" ""

/-- Counterexample to C1 as stated: `"[231215][240101]"` contains two distinct
valid 6-digit date spans, and `parse_bracket_info` returns the second one,
not the first. -/
theorem parse_bracket_info_first_valid_date_cex :
    isValidDateSeg "231215" = true ∧ isValidDateSeg "240101" = true ∧
    findBracketSpans ("[231215][240101]" : String).data = ["231215", "240101"] ∧
    (parse_bracket_info "[231215][240101]").1 = "240101" ∧
    ¬((parse_bracket_info "[231215][240101]").1 = "231215") := by
  refine ⟨by decide, by decide, by decide, by decide, by decide⟩

theorem digit_str_no_special {s : String} (hd : pyIsDigitStr s = true) :
    '[' ∉ s.data ∧ ']' ∉ s.data ∧ '\n' ∉ s.data ∧ pyStrip s = s := by
  simp only [pyIsDigitStr, Bool.decide_and, Bool.and_eq_true, decide_eq_true_eq,
    List.all_eq_true] at hd
  obtain ⟨-, hall⟩ := hd
  refine ⟨fun h => digit_ne_lbrack (hall _ h) rfl,
          fun h => digit_ne_rbrack (hall _ h) rfl,
          fun h => digit_ne_newline (hall _ h) rfl,
          pyStrip_eq_self (fun c hc => digit_not_space (hall c hc))⟩

/-- C2 (amended): a bracketed span of exactly six digits is accepted as the
expected date exactly when its month part is 1-12 and its day part is
1-31.  (The example `"[250230]"` of the claim meets these bounds — the code
checks no calendar validity — so it is accepted, not rejected; see the
counterexample.) -/
theorem parse_bracket_info_six_digit_iff (s : String)
    (hd : pyIsDigitStr s = true) (hl : s.length = 6) :
    (parse_bracket_info ("[" ++ s ++ "]")).1 = s ↔
      1 ≤ twoDigitAt s 2 ∧ twoDigitAt s 2 ≤ 12 ∧
      1 ≤ twoDigitAt s 4 ∧ twoDigitAt s 4 ≤ 31 := by
  obtain ⟨hlb, hrb, hnl, hstrip⟩ := digit_str_no_special hd
  have hdata : ("[" ++ s ++ "]").data = '[' :: (s.data ++ ']' :: []) := by
    rw [String.data_append, String.data_append]
    rfl
  have hspans : findBracketSpans ("[" ++ s ++ "]").data = [s] := by
    rw [hdata, findBracketSpans_bracket [] hrb hnl]
    rfl
  unfold parse_bracket_info
  rw [hspans]
  simp only [pbiGo, hstrip]
  rw [if_pos ⟨hd, hl⟩]
  by_cases h2 : 1 ≤ twoDigitAt s 2 ∧ twoDigitAt s 2 ≤ 12 ∧
      1 ≤ twoDigitAt s 4 ∧ twoDigitAt s 4 ≤ 31
  · rw [if_pos h2]
    simpa using h2
  · rw [if_neg h2]
    have hne : s ≠ "" := by
      intro h
      rw [h] at hl
      exact absurd hl (by decide)
    simp only [pbiGo]
    constructor
    · intro h; exact absurd h.symm hne
    · intro h; exact absurd h h2

/-- Witness for C2: the span `"231215"` (December 15) is accepted. -/
theorem parse_bracket_info_six_digit_iff_witness :
    (parse_bracket_info "[231215]").1 = "231215" :=
  (parse_bracket_info_six_digit_iff "231215" (by decide) (by decide)).mpr (by decide)

/-- Counterexample to C2 as stated: `"250230"` (month 2, day 30) is within
the month/day bounds, so the code ACCEPTS it as the expected date, while the
claim requires it to be rejected. -/
theorem parse_bracket_info_feb30_cex :
    (parse_bracket_info "[250230]").1 = "250230" ∧
    twoDigitAt "250230" 2 = 2 ∧ twoDigitAt "250230" 4 = 30 := by
  refine ⟨by decide, by decide, by decide⟩

/-! ### Claim C8: `parse_folder_name` -/

/-- C8 (amended): both versions remove every bracketed, parenthesized and
braced span and trim whitespace, and both map the claim's example to
`"Example Title"`; but only the CLI version then keeps just the trimmed text
before the first `+` (its title never contains `+`), while the GUI version
returns the cleaned string unsplit, as `"A + B"` shows. -/
theorem parse_folder_name_spec :
    (parse_folder_name "[VNDS][231215] Example Title (18+) \x7bFlag\x7d").1 =
      "Example Title" ∧
    (parse_folder_name_GUI "[VNDS][231215] Example Title (18+) \x7bFlag\x7d").1 =
      "Example Title" ∧
    (∀ s : String, '+' ∉ (parse_folder_name s).1.data) ∧
    (parse_folder_name "A + B").1 = "A" ∧
    (parse_folder_name_GUI "A + B").1 = "A + B" := by
  refine ⟨by decide, by decide, ?_, by decide, by decide⟩
  intro s
  unfold parse_folder_name
  by_cases h : '+' ∈ (cleanedTitle s).data
  · rw [if_pos h]
    intro hc
    have h1 : '+' ∈ pyStripL ((cleanedTitle s).data.takeWhile (fun c => c ≠ '+')) := hc
    have h2 := mem_pyStripL h1
    have h3 := List.mem_takeWhile_imp h2
    simp at h3
  · rw [if_neg h]
    exact h

/-- Counterexample to C8 as stated: on `"A + B"` the GUI's `parse_folder_name`
returns the whole cleaned string, not the trimmed text before the first
`+`. -/
theorem parse_folder_name_GUI_plus_cex :
    (parse_folder_name_GUI "A + B").1 = "A + B" ∧
    ¬((parse_folder_name_GUI "A + B").1 = "A") := by
  refine ⟨by decide, by decide⟩

/-! ### Claim C4: sorting, truncation and stability of the candidate list -/

theorem filter_orderedInsert (v : ℚ) (x : Candidate × ℚ) :
    ∀ s : List (Candidate × ℚ),
      (List.orderedInsert (fun p q => q.2 ≤ p.2) x s).filter (fun p => p.2 = v) =
        if x.2 = v then x :: s.filter (fun p => p.2 = v)
        else s.filter (fun p => p.2 = v) := by
  intro s
  induction s with
  | nil =>
    by_cases hx : x.2 = v <;> simp [List.orderedInsert, List.filter_cons, hx]
  | cons y s ih =>
    simp only [List.orderedInsert]
    by_cases hr : y.2 ≤ x.2
    · rw [if_pos hr]
      by_cases hx : x.2 = v <;> simp [List.filter_cons, hx]
    · rw [if_neg hr]
      rw [List.filter_cons, List.filter_cons, ih]
      by_cases hx : x.2 = v
      · have hy : ¬(y.2 = v) := by
          intro h; exact hr (le_of_eq (h.trans hx.symm))
        simp [hx, hy]
      · by_cases hy : y.2 = v <;> simp [hx, hy]

theorem filter_sortByConfDesc (v : ℚ) :
    ∀ l : List (Candidate × ℚ),
      (sortByConfDesc l).filter (fun p => p.2 = v) = l.filter (fun p => p.2 = v) := by
  intro l
  induction l with
  | nil => rfl
  | cons x l ih =>
    show (List.orderedInsert _ x (List.insertionSort _ l)).filter _ = _
    rw [filter_orderedInsert]
    rw [show (List.insertionSort (fun p q : Candidate × ℚ => q.2 ≤ p.2) l) =
      sortByConfDesc l from rfl, ih]
    by_cases hx : x.2 = v <;> simp [List.filter_cons, hx]

theorem sortByConfDesc_sorted (l : List (Candidate × ℚ)) :
    List.Pairwise (fun x y : Candidate × ℚ => y.2 ≤ x.2) (sortByConfDesc l) := by
  haveI : IsTotal (Candidate × ℚ) (fun p q => q.2 ≤ p.2) := ⟨fun a b => le_total b.2 a.2⟩
  haveI : IsTrans (Candidate × ℚ) (fun p q => q.2 ≤ p.2) :=
    ⟨fun a b c hab hbc => le_trans hbc hab⟩
  exact List.sorted_insertionSort _ l

theorem sorted_take_of_scored (l : List (Candidate × ℚ)) (n : Nat) :
    List.Pairwise (fun x y : Candidate × ℚ => y.2 ≤ x.2) ((sortByConfDesc l).take n) ∧
    ((sortByConfDesc l).take n).length ≤ n ∧
    ∀ v : ℚ, (((sortByConfDesc l).take n).filter (fun p => p.2 = v)) <+:
      (l.filter (fun p => p.2 = v)) := by
  refine ⟨(sortByConfDesc_sorted l).sublist (List.take_sublist n _),
    List.length_take_le n _, fun v => ?_⟩
  have h1 : (((sortByConfDesc l).take n).filter (fun p => p.2 = v)) <+:
      ((sortByConfDesc l).filter (fun p => p.2 = v)) :=
    (List.take_prefix n _).filter _
  rw [filter_sortByConfDesc] at h1
  exact h1

/-- C4: in both front-ends the returned candidate list is sorted by
descending confidence, its length never exceeds the requested limit (3 in
the CLI, `candidate_limit` in the GUI), and for every confidence value the
returned candidates carrying it form a prefix of the equally-scored
candidates in catalog order — the stable-sort guarantee. -/
theorem candidates_sorted_limited_stable :
    (∀ (res : Option (List Candidate)) (q ed ep : String),
      List.Pairwise (fun x y : Candidate × ℚ => y.2 ≤ x.2)
        (get_vn_candidates res q ed ep) ∧
      (get_vn_candidates res q ed ep).length ≤ 3 ∧
      ∀ v : ℚ, ((get_vn_candidates res q ed ep).filter (fun p => p.2 = v)) <+:
        ((scoreAllCLI q ed ep (res.getD [])).filter (fun p => p.2 = v))) ∧
    (∀ (res : Option (List Candidate)) (q ed ep : String) (lim : Nat),
      List.Pairwise (fun x y : Candidate × ℚ => y.2 ≤ x.2)
        (get_vn_candidates_GUI res q ed ep lim) ∧
      (get_vn_candidates_GUI res q ed ep lim).length ≤ lim ∧
      ∀ v : ℚ, ((get_vn_candidates_GUI res q ed ep lim).filter (fun p => p.2 = v)) <+:
        ((scoreAllGUI q ed ep (res.getD [])).filter (fun p => p.2 = v))) := by
  constructor
  · intro res q ed ep
    cases res with
    | none =>
      exact ⟨List.Pairwise.nil, by simp [get_vn_candidates], fun v => List.nil_prefix⟩
    | some results =>
      by_cases he : results.isEmpty
      · have : get_vn_candidates (some results) q ed ep = [] := by
          simp [get_vn_candidates, he]
        rw [this]
        exact ⟨List.Pairwise.nil, by simp, fun v => List.nil_prefix⟩
      · have : get_vn_candidates (some results) q ed ep =
            (sortByConfDesc (scoreAllCLI q ed ep results)).take 3 := by
          simp [get_vn_candidates, he]
        rw [this]
        exact sorted_take_of_scored _ 3
  · intro res q ed ep lim
    cases res with
    | none =>
      exact ⟨List.Pairwise.nil, by simp [get_vn_candidates_GUI], fun v => List.nil_prefix⟩
    | some results =>
      have : get_vn_candidates_GUI (some results) q ed ep lim =
          (sortByConfDesc (scoreAllGUI q ed ep results)).take lim := rfl
      rw [this]
      exact sorted_take_of_scored _ lim

/-! ### Bounds on the similarity machinery (for claim C3) -/

theorem flmRow_ok {alo ahi blo bhi i : Nat} {j2len : Nat → Nat}
    (hi1 : alo ≤ i) (hi2 : i < ahi) (hj : j2lenOK alo blo bhi i j2len) :
    ∀ (js : List Nat) (newf : Nat → Nat) (best : Nat × Nat × Nat),
      j2lenOK alo blo bhi (i + 1) newf → flmBestOK alo ahi blo bhi best →
      j2lenOK alo blo bhi (i + 1) (flmRow j2len i blo bhi js newf best).1 ∧
      flmBestOK alo ahi blo bhi (flmRow j2len i blo bhi js newf best).2 := by
  intro js
  induction js with
  | nil => intro newf best h1 h2; exact ⟨h1, h2⟩
  | cons j js ih =>
    intro newf best h1 h2
    simp only [flmRow]
    by_cases hjb : j < blo
    · rw [if_pos hjb]; exact ih newf best h1 h2
    · rw [if_neg hjb]
      by_cases hbh : bhi ≤ j
      · rw [if_pos hbh]; exact ⟨h1, h2⟩
      · rw [if_neg hbh]
        have hkrow : (if j = 0 then 0 else j2len (j - 1)) + 1 ≤ i + 1 - alo := by
          by_cases hj0 : j = 0
          · rw [if_pos hj0]; omega
          · rw [if_neg hj0]
            have := (hj (j - 1)).1
            omega
        have hkcol : ((if j = 0 then 0 else j2len (j - 1)) + 1) + blo ≤ j + 1 := by
          by_cases hj0 : j = 0
          · rw [if_pos hj0]; omega
          · rw [if_neg hj0]
            by_cases hz : j2len (j - 1) = 0
            · rw [hz]; omega
            · have := (hj (j - 1)).2 hz
              omega
        apply ih
        · intro j'
          by_cases he : j' = j
          · subst he
            refine ⟨by simpa using hkrow, fun _ => ?_⟩
            simp only [eq_self_iff_true, if_true]
            exact ⟨by omega, by omega, hkcol⟩
          · refine ⟨?_, fun hne => ?_⟩
            · simpa [he] using (h1 j').1
            · have hne' : newf j' ≠ 0 := by simpa [he] using hne
              simpa [he] using (h1 j').2 hne'
        · by_cases hcmp : best.2.2 < (if j = 0 then 0 else j2len (j - 1)) + 1
          · rw [if_pos hcmp]
            refine ⟨?_, ?_, ?_, ?_⟩ <;> simp only [flmBestOK] <;> omega
          · rw [if_neg hcmp]; exact h2

theorem flmRows_ok (a b : List Char) {alo ahi blo bhi : Nat} :
    ∀ (n i : Nat) (f : Nat → Nat) (best : Nat × Nat × Nat),
      alo ≤ i → i + n ≤ ahi → j2lenOK alo blo bhi i f → flmBestOK alo ahi blo bhi best →
      flmBestOK alo ahi blo bhi (flmRows a b blo bhi n i f best) := by
  intro n
  induction n with
  | zero => intro i f best _ _ _ hb; exact hb
  | succ n ih =>
    intro i f best hi hin hf hb
    simp only [flmRows]
    have hz : j2lenOK alo blo bhi (i + 1) (fun _ => 0) :=
      fun j => ⟨Nat.zero_le _, fun h => absurd rfl h⟩
    have step := flmRow_ok hi (by omega) hf (b2j b (a.getD i ' ')) (fun _ => 0) best hz hb
    exact ih (i + 1) _ _ (by omega) (by omega) step.1 step.2

theorem extendLeft_ok (a b : List Char) {alo ahi blo bhi : Nat} :
    ∀ (fuel : Nat) (t : Nat × Nat × Nat),
      flmBestOK alo ahi blo bhi t → flmBestOK alo ahi blo bhi (extendLeft a b alo blo fuel t) := by
  intro fuel
  induction fuel with
  | zero => intro t h; exact h
  | succ fuel ih =>
    intro t h
    obtain ⟨i, j, k⟩ := t
    simp only [extendLeft]
    by_cases hg : alo < i ∧ blo < j ∧ charsEq (a.get? (i - 1)) (b.get? (j - 1)) = true
    · rw [if_pos hg]
      apply ih
      simp only [flmBestOK] at h ⊢
      omega
    · rw [if_neg hg]; exact h

theorem extendRight_ok (a b : List Char) {alo ahi blo bhi : Nat} :
    ∀ (fuel : Nat) (t : Nat × Nat × Nat),
      flmBestOK alo ahi blo bhi t → flmBestOK alo ahi blo bhi (extendRight a b ahi bhi fuel t) := by
  intro fuel
  induction fuel with
  | zero => intro t h; exact h
  | succ fuel ih =>
    intro t h
    obtain ⟨i, j, k⟩ := t
    simp only [extendRight]
    by_cases hg : i + k < ahi ∧ j + k < bhi ∧ charsEq (a.get? (i + k)) (b.get? (j + k)) = true
    · rw [if_pos hg]
      apply ih
      simp only [flmBestOK] at h ⊢
      omega
    · rw [if_neg hg]; exact h

theorem findLongestMatch_ok (a b : List Char) {alo ahi blo bhi : Nat}
    (h1 : alo ≤ ahi) (h2 : blo ≤ bhi) :
    flmBestOK alo ahi blo bhi (findLongestMatch a b alo ahi blo bhi) := by
  unfold findLongestMatch
  apply extendRight_ok
  apply extendLeft_ok
  apply flmRows_ok a b (ahi - alo) alo (fun _ => 0) (alo, blo, 0) (le_refl alo) (by omega)
    (fun j => ⟨Nat.zero_le _, fun h => absurd rfl h⟩)
  exact ⟨le_refl alo, by simpa using h1, le_refl blo, by simpa using h2⟩

theorem matchSum_le (a b : List Char) :
    ∀ (fuel alo ahi blo bhi : Nat), alo ≤ ahi → blo ≤ bhi →
      matchSum a b fuel alo ahi blo bhi ≤ min (ahi - alo) (bhi - blo) := by
  intro fuel
  induction fuel with
  | zero => intro alo ahi blo bhi _ _; simp [matchSum]
  | succ fuel ih =>
    intro alo ahi blo bhi h1 h2
    have hb := findLongestMatch_ok a b h1 h2
    obtain ⟨hbi, hbik, hbj, hbjk⟩ := hb
    simp only [matchSum]
    by_cases hk : (findLongestMatch a b alo ahi blo bhi).2.2 = 0
    · rw [if_pos hk]; exact Nat.zero_le _
    · rw [if_neg hk]
      have t1 : (if alo < (findLongestMatch a b alo ahi blo bhi).1 ∧
            blo < (findLongestMatch a b alo ahi blo bhi).2.1 then
            matchSum a b fuel alo (findLongestMatch a b alo ahi blo bhi).1 blo
              (findLongestMatch a b alo ahi blo bhi).2.1 else 0) ≤
          min ((findLongestMatch a b alo ahi blo bhi).1 - alo)
            ((findLongestMatch a b alo ahi blo bhi).2.1 - blo) := by
        by_cases hg : alo < (findLongestMatch a b alo ahi blo bhi).1 ∧
            blo < (findLongestMatch a b alo ahi blo bhi).2.1
        · rw [if_pos hg]; exact ih _ _ _ _ (by omega) (by omega)
        · rw [if_neg hg]; exact Nat.zero_le _
      have t2 : (if (findLongestMatch a b alo ahi blo bhi).1 +
              (findLongestMatch a b alo ahi blo bhi).2.2 < ahi ∧
            (findLongestMatch a b alo ahi blo bhi).2.1 +
              (findLongestMatch a b alo ahi blo bhi).2.2 < bhi then
            matchSum a b fuel
              ((findLongestMatch a b alo ahi blo bhi).1 +
                (findLongestMatch a b alo ahi blo bhi).2.2) ahi
              ((findLongestMatch a b alo ahi blo bhi).2.1 +
                (findLongestMatch a b alo ahi blo bhi).2.2) bhi else 0) ≤
          min (ahi - ((findLongestMatch a b alo ahi blo bhi).1 +
              (findLongestMatch a b alo ahi blo bhi).2.2))
            (bhi - ((findLongestMatch a b alo ahi blo bhi).2.1 +
              (findLongestMatch a b alo ahi blo bhi).2.2)) := by
        by_cases hg : (findLongestMatch a b alo ahi blo bhi).1 +
              (findLongestMatch a b alo ahi blo bhi).2.2 < ahi ∧
            (findLongestMatch a b alo ahi blo bhi).2.1 +
              (findLongestMatch a b alo ahi blo bhi).2.2 < bhi
        · rw [if_pos hg]; exact ih _ _ _ _ (by omega) (by omega)
        · rw [if_neg hg]; exact Nat.zero_le _
      have t1a := le_trans t1 (Nat.min_le_left _ _)
      have t1b := le_trans t1 (Nat.min_le_right _ _)
      have t2a := le_trans t2 (Nat.min_le_left _ _)
      have t2b := le_trans t2 (Nat.min_le_right _ _)
      omega

theorem matchesTotal_le (a b : List Char) :
    matchesTotal a b ≤ min a.length b.length := by
  have := matchSum_le a b (a.length + b.length + 1) 0 a.length 0 b.length
    (Nat.zero_le _) (Nat.zero_le _)
  simpa [matchesTotal] using this

theorem ratio_eq_of_ne (a b : String) (h : ¬(a.length + b.length = 0)) :
    ratio a b =
      2 * (matchesTotal a.data b.data : ℚ) / ((a.length : ℚ) + (b.length : ℚ)) := by
  have h' : ¬(a.length = 0 ∧ b.length = 0) := by omega
  simp [ratio, h']

theorem ratio_nonneg (a b : String) : 0 ≤ ratio a b := by
  by_cases h : a.length + b.length = 0
  · have h1 : a.length = 0 := by omega
    have h2 : b.length = 0 := by omega
    simp [ratio, h1, h2]
  · rw [ratio_eq_of_ne a b h]
    positivity

theorem ratio_le_one (a b : String) : ratio a b ≤ 1 := by
  by_cases h : a.length + b.length = 0
  · have h1 : a.length = 0 := by omega
    have h2 : b.length = 0 := by omega
    simp [ratio, h1, h2]
  · rw [ratio_eq_of_ne a b h]
    have hT : (0 : ℚ) < (a.length : ℚ) + (b.length : ℚ) := by
      have h0 : 0 < a.length + b.length := Nat.pos_of_ne_zero h
      exact_mod_cast h0
    rw [div_le_one hT]
    have h2 : 2 * matchesTotal a.data b.data ≤ a.length + b.length := by
      have hm := matchesTotal_le a.data b.data
      have hl := Nat.min_le_left a.data.length b.data.length
      have hr := Nat.min_le_right a.data.length b.data.length
      have ha : a.data.length = a.length := rfl
      have hb : b.data.length = b.length := rfl
      omega
    calc 2 * (matchesTotal a.data b.data : ℚ)
        = ((2 * matchesTotal a.data b.data : Nat) : ℚ) := by push_cast; ring
      _ ≤ ((a.length + b.length : Nat) : ℚ) := by exact_mod_cast h2
      _ = (a.length : ℚ) + (b.length : ℚ) := by push_cast; ring

/-! ### Claim C3: composite confidence is a bounded mean -/

theorem titleScoreCLI_bounds (q : String) (c : Candidate) :
    0 ≤ titleScoreCLI q c ∧ titleScoreCLI q c ≤ 1 :=
  ⟨ratio_nonneg _ _, ratio_le_one _ _⟩

theorem dateScoreCLI_bounds (ed : String) (c : Candidate) :
    0 ≤ dateScoreCLI ed c ∧ dateScoreCLI ed c ≤ 1 := by
  unfold dateScoreCLI
  split_ifs with h
  · exact ⟨ratio_nonneg _ _, ratio_le_one _ _⟩
  · norm_num

theorem prodScoreCLI_bounds (ep : String) (c : Candidate) :
    0 ≤ prodScoreCLI ep c ∧ prodScoreCLI ep c ≤ 1 := by
  unfold prodScoreCLI
  split_ifs with h
  · exact ⟨ratio_nonneg _ _, ratio_le_one _ _⟩
  · norm_num

theorem titleScoreGUI_bounds (q : String) (c : Candidate) :
    0 ≤ titleScoreGUI q c ∧ titleScoreGUI q c ≤ 1 := by
  unfold titleScoreGUI
  constructor
  · exact le_trans (ratio_nonneg _ _) (le_max_left _ _)
  · apply max_le (ratio_le_one _ _)
    have step : ∀ (ts : List TitleEntry) (acc : ℚ), acc ≤ 1 →
        ts.foldl (fun a t => max a (ratio (pyLower q) (pyLower (t.title.getD "")))) acc ≤ 1 := by
      intro ts
      induction ts with
      | nil => intro acc h; exact h
      | cons t ts ih =>
        intro acc h
        exact ih _ (max_le h (ratio_le_one _ _))
    exact step _ 0 (by norm_num)

theorem dateScoreGUI_bounds (ed : String) (c : Candidate) :
    0 ≤ dateScoreGUI ed c ∧ dateScoreGUI ed c ≤ 1 := by
  unfold dateScoreGUI
  split_ifs with h
  · exact ⟨ratio_nonneg _ _, ratio_le_one _ _⟩
  · norm_num

theorem prodScoreGUI_bounds (ep : String) (c : Candidate) :
    0 ≤ prodScoreGUI ep c ∧ prodScoreGUI ep c ≤ 1 := by
  unfold prodScoreGUI
  split_ifs with h
  · exact ⟨ratio_nonneg _ _, ratio_le_one _ _⟩
  · norm_num

theorem mem_get_vn_candidates_conf {res : Option (List Candidate)} {q ed ep : String}
    {c : Candidate} {v : ℚ} (h : (c, v) ∈ get_vn_candidates res q ed ep) :
    v = confCLI q ed ep c := by
  cases res with
  | none => exact absurd h (List.not_mem_nil _)
  | some results =>
    simp only [get_vn_candidates] at h
    by_cases he : results.isEmpty
    · rw [if_pos he] at h
      exact absurd h (List.not_mem_nil _)
    · rw [if_neg he] at h
      have h1 := List.mem_of_mem_take h
      have h2 := (List.perm_insertionSort (fun p q' : Candidate × ℚ => q'.2 ≤ p.2) _).mem_iff.mp h1
      unfold scoreAllCLI at h2
      obtain ⟨c', _, heq⟩ := List.mem_map.mp h2
      obtain ⟨rfl, rfl⟩ := Prod.mk.injEq .. ▸ heq
      rfl

theorem mem_get_vn_candidates_GUI_conf {res : Option (List Candidate)} {q ed ep : String}
    {lim : Nat} {c : Candidate} {v : ℚ}
    (h : (c, v) ∈ get_vn_candidates_GUI res q ed ep lim) :
    v = confGUI q ed ep c := by
  cases res with
  | none => exact absurd h (List.not_mem_nil _)
  | some results =>
    simp only [get_vn_candidates_GUI] at h
    have h1 := List.mem_of_mem_take h
    have h2 := (List.perm_insertionSort (fun p q' : Candidate × ℚ => q'.2 ≤ p.2) _).mem_iff.mp h1
    unfold scoreAllGUI at h2
    obtain ⟨c', _, heq⟩ := List.mem_map.mp h2
    obtain ⟨rfl, rfl⟩ := Prod.mk.injEq .. ▸ heq
    rfl

/-- C3: every confidence either front-end attaches to a returned candidate is
the unweighted arithmetic mean of its three sub-scores, each of which lies in
`[0,1]`, hence the confidence lies in `[0,1]`; and when both hint fields are
empty it equals exactly `(titleScore + 0.5 + 0.5)/3 = (titleScore + 1)/3`. -/
theorem confidence_mean_bounds :
    (∀ (res : Option (List Candidate)) (q ed ep : String) (c : Candidate) (v : ℚ),
      (c, v) ∈ get_vn_candidates res q ed ep →
        v = (titleScoreCLI q c + dateScoreCLI ed c + prodScoreCLI ep c) / 3 ∧
        (0 ≤ titleScoreCLI q c ∧ titleScoreCLI q c ≤ 1) ∧
        (0 ≤ dateScoreCLI ed c ∧ dateScoreCLI ed c ≤ 1) ∧
        (0 ≤ prodScoreCLI ep c ∧ prodScoreCLI ep c ≤ 1) ∧
        0 ≤ v ∧ v ≤ 1 ∧
        (ed = "" → ep = "" → v = (titleScoreCLI q c + 1) / 3)) ∧
    (∀ (res : Option (List Candidate)) (q ed ep : String) (lim : Nat)
        (c : Candidate) (v : ℚ),
      (c, v) ∈ get_vn_candidates_GUI res q ed ep lim →
        v = (titleScoreGUI q c + dateScoreGUI ed c + prodScoreGUI ep c) / 3 ∧
        (0 ≤ titleScoreGUI q c ∧ titleScoreGUI q c ≤ 1) ∧
        (0 ≤ dateScoreGUI ed c ∧ dateScoreGUI ed c ≤ 1) ∧
        (0 ≤ prodScoreGUI ep c ∧ prodScoreGUI ep c ≤ 1) ∧
        0 ≤ v ∧ v ≤ 1 ∧
        (ed = "" → ep = "" → v = (titleScoreGUI q c + 1) / 3)) := by
  constructor
  · intro res q ed ep c v h
    have hv : v = confCLI q ed ep c := mem_get_vn_candidates_conf h
    have ht := titleScoreCLI_bounds q c
    have hd := dateScoreCLI_bounds ed c
    have hp := prodScoreCLI_bounds ep c
    have hconf : confCLI q ed ep c =
        (titleScoreCLI q c + dateScoreCLI ed c + prodScoreCLI ep c) / 3 := rfl
    refine ⟨hv.trans hconf, ht, hd, hp, ?_, ?_, ?_⟩
    · rw [hv, hconf]; linarith [ht.1, hd.1, hp.1]
    · rw [hv, hconf]; linarith [ht.2, hd.2, hp.2]
    · intro hed hep
      subst hed; subst hep
      have hd2 : dateScoreCLI "" c = 1 / 2 := by
        unfold dateScoreCLI
        rw [if_neg (by simp)]
      have hp2 : prodScoreCLI "" c = 1 / 2 := by
        unfold prodScoreCLI
        rw [if_neg (by simp)]
      rw [hv, hconf, hd2, hp2]
      ring
  · intro res q ed ep lim c v h
    have hv : v = confGUI q ed ep c := mem_get_vn_candidates_GUI_conf h
    have ht := titleScoreGUI_bounds q c
    have hd := dateScoreGUI_bounds ed c
    have hp := prodScoreGUI_bounds ep c
    have hconf : confGUI q ed ep c =
        (titleScoreGUI q c + dateScoreGUI ed c + prodScoreGUI ep c) / 3 := rfl
    refine ⟨hv.trans hconf, ht, hd, hp, ?_, ?_, ?_⟩
    · rw [hv, hconf]; linarith [ht.1, hd.1, hp.1]
    · rw [hv, hconf]; linarith [ht.2, hd.2, hp.2]
    · intro hed hep
      subst hed; subst hep
      have hd2 : dateScoreGUI "" c = 1 / 2 := by
        unfold dateScoreGUI
        rw [if_neg (by simp)]
      have hp2 : prodScoreGUI "" c = 1 / 2 := by
        unfold prodScoreGUI
        rw [if_neg (by simp)]
      rw [hv, hconf, hd2, hp2]
      ring

/-- Witness for C3 at a one-element result list with empty hints. -/
theorem confidence_mean_bounds_witness :
    0 ≤ confCLI "ab" "" "" candAB ∧ confCLI "ab" "" "" candAB ≤ 1 ∧
    confCLI "ab" "" "" candAB = (titleScoreCLI "ab" candAB + 1) / 3 := by
  have hmem : (candAB, confCLI "ab" "" "" candAB) ∈
      get_vn_candidates (some [candAB]) "ab" "" "" := by
    show (candAB, confCLI "ab" "" "" candAB) ∈ [(candAB, confCLI "ab" "" "" candAB)]
    exact List.mem_singleton.mpr rfl
  have h := confidence_mean_bounds.1 (some [candAB]) "ab" "" "" candAB
    (confCLI "ab" "" "" candAB) hmem
  exact ⟨h.2.2.2.2.1, h.2.2.2.2.2.1, h.2.2.2.2.2.2 rfl rfl⟩

/-! ### Claim C5: the date sub-score -/

theorem format_release_date_ne_empty (s : String) : format_release_date s ≠ "" := by
  unfold format_release_date
  cases h : parseISO s with
  | none => simp
  | some t =>
    obtain ⟨y, m, d⟩ := t
    simp only []
    intro hc
    have := congrArg String.data hc
    simp only [twoDigitChars] at this
    split_ifs at this <;> simp at this

/-- C5 (amended): the CLI's date sub-score is exactly as the claim states —
the similarity of the expected `YYMMDD` date to the candidate's release date
converted to `YYMMDD`, with `0.5` when either side is absent.  The GUI's
date sub-score instead converts the 6-digit expected date to ISO
`20YY-MM-DD` and compares it with the raw ISO release string, which yields a
different value (see the counterexample). -/
theorem dateScoreGUI_val : dateScoreGUI "231215" candJan = 7 / 10 := by
  have h1 : dateScoreGUI "231215" candJan = ratio "2023-12-15" "2024-01-01" := by
    unfold dateScoreGUI
    rw [if_pos ⟨by decide, by decide⟩]
    rw [show normExpectedGUI "231215" = "2023-12-15" from by decide]
    rfl
  rw [h1, ratio_eq_of_ne _ _ (by decide)]
  rw [show matchesTotal "2023-12-15".data "2024-01-01".data = 7 from by decide,
    show ("2023-12-15" : String).length = 10 from by decide,
    show ("2024-01-01" : String).length = 10 from by decide]
  norm_num

theorem dateSpec_val : dateScoreSpec "231215" candJan.released = 1 / 2 := by
  have h1 : dateScoreSpec "231215" candJan.released = ratio "231215" "240101" := by
    unfold dateScoreSpec
    rw [if_pos ⟨by decide, by decide⟩]
    rw [show format_release_date ((candJan.released).getD "") = "240101" from by decide]
  rw [h1, ratio_eq_of_ne _ _ (by decide)]
  rw [show matchesTotal "231215".data "240101".data = 3 from by decide,
    show ("231215" : String).length = 6 from by decide,
    show ("240101" : String).length = 6 from by decide]
  norm_num

theorem dateScore_refinement :
    (∀ (ed : String) (c : Candidate), dateScoreCLI ed c = dateScoreSpec ed c.released) ∧
    (∀ (ed : String) (c : Candidate), dateScoreGUI ed c = dateScoreGUIAmended ed c.released) ∧
    dateScoreGUI "231215" candJan ≠ dateScoreSpec "231215" candJan.released := by
  refine ⟨?_, fun ed c => rfl, ?_⟩
  · intro ed c
    by_cases ht : truthyStr c.released = true
    · have hcd : candidateDateCLI c = format_release_date (c.released.getD "") := by
        unfold candidateDateCLI
        rw [if_pos ht]
      unfold dateScoreCLI dateScoreSpec
      rw [hcd]
      by_cases hed : ed = ""
      · rw [if_neg (by simp [hed]), if_neg (by simp [hed])]
      · rw [if_pos ⟨hed, format_release_date_ne_empty _⟩, if_pos ⟨hed, ht⟩]
    · have ht' : truthyStr c.released = false := by
        cases hh : truthyStr c.released
        · rfl
        · exact absurd hh ht
      have hcd : candidateDateCLI c = "" := by
        unfold candidateDateCLI
        rw [if_neg (by rw [ht']; exact Bool.false_ne_true)]
      unfold dateScoreCLI dateScoreSpec
      rw [hcd]
      have hn1 : ¬(ed ≠ "" ∧ ("" : String) ≠ "") := fun hc => absurd hc.2 (by simp)
      have hn2 : ¬(ed ≠ "" ∧ truthyStr c.released = true) := by
        intro hc
        rw [ht'] at hc
        exact absurd hc.2 Bool.false_ne_true
      rw [if_neg hn1, if_neg hn2]
  · rw [dateScoreGUI_val, dateSpec_val]
    norm_num

/-- Counterexample to C5 as stated: for expected date `"231215"` and release
`"2024-01-01"` the GUI's date sub-score is `7/10`, while the similarity of
`"231215"` to the release converted to `YYMMDD` (`"240101"`) is `1/2`. -/
theorem dateScoreGUI_iso_cex :
    dateScoreGUI "231215" candJan = 7 / 10 ∧
    ratio "231215" (format_release_date "2024-01-01") = 1 / 2 ∧
    dateScoreGUI "231215" candJan ≠ ratio "231215" (format_release_date "2024-01-01") := by
  have h2 : ratio "231215" (format_release_date "2024-01-01") = 1 / 2 := by
    rw [show format_release_date "2024-01-01" = "240101" from by decide]
    rw [ratio_eq_of_ne _ _ (by decide)]
    rw [show matchesTotal "231215".data "240101".data = 3 from by decide,
      show ("231215" : String).length = 6 from by decide,
      show ("240101" : String).length = 6 from by decide]
    norm_num
  refine ⟨dateScoreGUI_val, h2, ?_⟩
  rw [dateScoreGUI_val, h2]
  norm_num

/-! ### Claim C9: custom templates with an unknown placeholder -/

theorem takeWhile_all {q : Char → Bool} :
    ∀ {l : List Char}, l.all q = true → l.takeWhile q = l := by
  intro l h
  induction l with
  | nil => rfl
  | cons c rest ih =>
    simp only [List.all_cons, Bool.and_eq_true] at h
    rw [List.takeWhile_cons, h.1]
    simp [ih h.2]

theorem find?_fst_isNone (f : String) :
    ∀ env : List (String × String),
      (env.find? (fun e => e.1 = f)).isNone = !((env.map Prod.fst).contains f) := by
  intro env
  induction env with
  | nil => rfl
  | cons e env ih =>
    show (List.find? (fun x => x.1 = f) (e :: env)).isNone =
      !((e.1 :: env.map Prod.fst).contains f)
    by_cases h : e.1 = f
    · rw [List.find?_cons_of_pos _ (by simpa using h), List.contains_cons]
      rw [show (f == e.1) = true from by simp [h.symm]]
      simp
    · rw [List.find?_cons_of_neg _ (by simpa using h), ih, List.contains_cons]
      rw [show (f == e.1) = false from by simp [Ne.symm h]]
      rw [Bool.false_or]

theorem tfAux_fsAux_error (env : List (String × String)) :
    ∀ (fuel : Nat) (l : List Char) (fs : List String) (k : String),
      tfAux fuel l = some fs →
      fs.find? (fun f => (env.find? (fun e => e.1 = f)).isNone) = some k →
      fsAux env fuel l = .error (.keyError k) := by
  intro fuel
  induction fuel with
  | zero =>
    intro l fs k htf hfind
    have : fs = [] := by simpa [tfAux] using htf.symm
    subst this
    simp [List.find?] at hfind
  | succ fuel ih =>
    intro l fs k htf hfind
    cases l with
    | nil =>
      have : fs = [] := by simpa [tfAux] using htf.symm
      subst this
      simp [List.find?] at hfind
    | cons c rest =>
      simp only [tfAux] at htf
      by_cases hc : c = '\x7d'
      · rw [if_pos hc] at htf
        cases rest with
        | nil => simp at htf
        | cons d rest' =>
          try simp only [] at htf
          by_cases hd : d = '\x7d'
          · rw [if_pos hd] at htf
            have hrec := ih rest' fs k htf hfind
            simp only [fsAux]
            rw [if_pos hc]
            try simp only []
            rw [if_pos hd, hrec]
            rfl
          · rw [if_neg hd] at htf
            simp at htf
      · rw [if_neg hc] at htf
        by_cases hb : c = '\x7b'
        · rw [if_pos hb] at htf
          cases rest with
          | nil => simp at htf
          | cons d rest' =>
            try simp only [] at htf
            by_cases hd : d = '\x7b'
            · rw [if_pos hd] at htf
              have hrec := ih rest' fs k htf hfind
              simp only [fsAux]
              rw [if_neg hc, if_pos hb]
              try simp only []
              rw [if_pos hd, hrec]
              rfl
            · rw [if_neg hd] at htf
              cases hsf : splitField (d :: rest') with
              | none => rw [hsf] at htf; simp at htf
              | some tr =>
                obtain ⟨nm, term, r⟩ := tr
                rw [hsf] at htf
                try simp only [] at htf
                by_cases hplain : term = '\x7d' ∧ String.mk nm ≠ "" ∧
                    ¬(pyIsDigitStr (String.mk nm) = true) ∧
                    nm.all (fun ch => ch ≠ '.' ∧ ch ≠ '[') = true
                · rw [if_pos hplain] at htf
                  obtain ⟨fs', hfs', rfl⟩ := Option.map_eq_some'.mp htf
                  have hbase : String.mk (nm.takeWhile (fun ch => ch ≠ '.' ∧ ch ≠ '[')) =
                      String.mk nm := by
                    rw [takeWhile_all hplain.2.2.2]
                  have hfield0 : fsField env nm term =
                      (match (env.find? (fun e => e.1 = String.mk nm)).map (fun e => e.2) with
                       | none => Except.error (PyErr.keyError (String.mk nm))
                       | some v => Except.ok (v, true)) := by
                    unfold fsField
                    rw [hbase]
                    rw [if_neg (by
                      intro hcon
                      rcases hcon with hcon | hcon
                      · exact hplain.2.1 hcon
                      · exact hplain.2.2.1 hcon)]
                    cases henv : (env.find? (fun e => e.1 = String.mk nm)).map
                        (fun e => e.2) with
                    | none => rfl
                    | some v =>
                      simp [hplain.1]
                  simp only [fsAux]
                  rw [if_neg hc, if_pos hb]
                  try simp only []
                  rw [if_neg hd, hsf]
                  try simp only []
                  rw [hfield0]
                  rw [List.find?_cons] at hfind
                  by_cases hp : ((env.find? (fun e => e.1 = String.mk nm)).isNone : Bool) = true
                  · rw [hp] at hfind
                    try simp only [] at hfind
                    have hkeq : String.mk nm = k := by simpa using hfind
                    have hnone : env.find? (fun e => e.1 = String.mk nm) = none :=
                      Option.isNone_iff_eq_none.mp hp
                    rw [hnone]
                    simp only [Option.map_none']
                    try simp only []
                    rw [hkeq]
                  · have hp' : (env.find? (fun e => e.1 = String.mk nm)).isNone = false := by
                      cases hh : (env.find? (fun e => e.1 = String.mk nm)).isNone
                      · rfl
                      · exact absurd hh hp
                    rw [hp'] at hfind
                    try simp only [] at hfind
                    cases henv : env.find? (fun e => e.1 = String.mk nm) with
                    | none => rw [henv] at hp'; simp at hp'
                    | some e =>
                      simp only [Option.map_some']
                      try simp only []
                      have hrec := ih r fs' k hfs' hfind
                      rw [hrec]
                      rfl
                · rw [if_neg hplain] at htf
                  simp at htf
        · rw [if_neg hb] at htf
          have hrec := ih rest fs k htf hfind
          simp only [fsAux]
          rw [if_neg hc, if_neg hb, hrec]
          rfl

theorem tfAux_mem_lbrace :
    ∀ (fuel : Nat) (l : List Char) (fs : List String),
      tfAux fuel l = some fs → fs ≠ [] → '\x7b' ∈ l := by
  intro fuel
  induction fuel with
  | zero =>
    intro l fs htf hne
    have : fs = [] := by simpa [tfAux] using htf.symm
    exact absurd this hne
  | succ fuel ih =>
    intro l fs htf hne
    cases l with
    | nil =>
      have : fs = [] := by simpa [tfAux] using htf.symm
      exact absurd this hne
    | cons c rest =>
      simp only [tfAux] at htf
      by_cases hc : c = '\x7d'
      · rw [if_pos hc] at htf
        cases rest with
        | nil => simp at htf
        | cons d rest' =>
          try simp only [] at htf
          by_cases hd : d = '\x7d'
          · rw [if_pos hd] at htf
            exact List.mem_cons_of_mem _ (List.mem_cons_of_mem _ (ih rest' fs htf hne))
          · rw [if_neg hd] at htf
            simp at htf
      · rw [if_neg hc] at htf
        by_cases hb : c = '\x7b'
        · subst hb
          exact List.mem_cons_self _ _
        · rw [if_neg hb] at htf
          exact List.mem_cons_of_mem _ (ih rest fs htf hne)

/-- C9: for every well-formed custom template whose replacement fields are
plain names and reference at least one name outside
{producer, release_date, length, title, flags, tags}, both synthesizers fail
on the first such unknown token `k`: the CLI raises `KeyError(k)` (no folder
name is produced), and the GUI catches it and returns the message
`Error: missing placeholder 'k'` instead of a synthesized name. -/
theorem custom_template_missing_placeholder
    (vn : Candidate) (rel : Option ReleaseInfo) (flags tags : Option String)
    (t : String) (fs : List String) (k : String)
    (htf : templateFields t = some fs)
    (hk : fs.find? (fun f => !knownPlaceholders.contains f) = some k) :
    suggest_new_folder_name vn rel flags tags (some t) =
      .error (.keyError k) ∧
    suggest_new_folder_name_GUI vn rel flags tags (some t) none =
      .ok ("Error: missing placeholder \x27" ++ k ++ "\x27") := by
  have hfs_ne : fs ≠ [] := by
    intro h
    subst h
    simp [List.find?] at hk
  have ht_ne : t ≠ "" := by
    intro h
    apply hfs_ne
    have h0 : templateFields t = some [] := by rw [h]; rfl
    rw [h0] at htf
    exact (Option.some.inj htf).symm
  have hlb : '\x7b' ∈ t.data :=
    tfAux_mem_lbrace (t.data.length + 1) t.data fs htf hfs_ne
  have hstrip : pyStrip t ≠ "" := pyStrip_ne_empty hlb (by decide)
  have hkey : ∀ env : List (String × String), env.map Prod.fst = knownPlaceholders →
      fsAux env (t.data.length + 1) t.data = .error (.keyError k) := by
    intro env henv
    apply tfAux_fsAux_error env (t.data.length + 1) t.data fs k htf
    have hpred : (fun f => (env.find? (fun e => e.1 = f)).isNone) =
        (fun f => !knownPlaceholders.contains f) := by
      funext f
      rw [find?_fst_isNone, henv]
    rw [hpred]
    exact hk
  have stepG : ∀ env : List (String × String), env.map Prod.fst = knownPlaceholders →
      pyFormat env t = .error (.keyError k) := by
    intro env henv
    unfold pyFormat
    rw [hkey env henv]
    rfl
  constructor
  · have hcond : truthyStr (some t) = true := by simp [truthyStr, ht_ne]
    simp only [suggest_new_folder_name]
    rw [if_pos hcond]
    simp only [Option.getD_some]
    rw [stepG (stdEnv (resolveProducer vn rel) (resolveFormattedDate vn rel)
      (lengthToken vn) (vn.title.getD "Unknown Title") (flagsComputed flags)
      (if truthyStr tags = true then tags.getD "" else "")) rfl]
  · have hcond : truthyStr (some t) = true ∧ pyStrip ((some t).getD "") ≠ "" := by
      refine ⟨by simp [truthyStr, ht_ne], by simpa using hstrip⟩
    simp only [suggest_new_folder_name_GUI, truthyStr, Bool.false_eq_true, if_false,
      Option.getD_some]
    rw [if_pos (by simpa [truthyStr] using hcond)]
    rw [stepG (stdEnv (resolveProducer vn rel) (resolveFormattedDate vn rel)
      (lengthToken vn) (vn.title.getD "Unknown Title") (pyStrip (flags.getD ""))
      (pyStrip (tags.getD ""))) rfl]

/-- Witness for C9 at the template `"{title} {bogus}"`. -/
theorem custom_template_missing_placeholder_witness :
    suggest_new_folder_name candAB none none none (some "\x7btitle\x7d \x7bbogus\x7d") =
      .error (.keyError "bogus") ∧
    suggest_new_folder_name_GUI candAB none none none (some "\x7btitle\x7d \x7bbogus\x7d")
        none =
      .ok ("Error: missing placeholder \x27" ++ "bogus" ++ "\x27") :=
  custom_template_missing_placeholder candAB none none none "\x7btitle\x7d \x7bbogus\x7d"
    ["title", "bogus"] "bogus" (by decide) (by decide)

/-! ### Claim C7: the default-template round-trip -/

theorem digitChr_isDigit (n : Nat) : isDigitCh (digitChr n) = true := by
  have h : n % 10 < 10 := Nat.mod_lt _ (by norm_num)
  unfold digitChr
  set r := n % 10 with hr
  interval_cases r <;> decide

theorem digitVal_digitChr (n : Nat) : digitVal (digitChr n) = n % 10 := by
  have h : n % 10 < 10 := Nat.mod_lt _ (by norm_num)
  unfold digitChr
  set r := n % 10 with hr
  interval_cases r <;> decide

theorem twoDigit_spec (n : Nat) (h : n < 100) :
    ∃ c1 c2, twoDigitChars n = [c1, c2] ∧ isDigitCh c1 = true ∧ isDigitCh c2 = true ∧
      digitVal c1 * 10 + digitVal c2 = n := by
  unfold twoDigitChars
  by_cases hn : n < 10
  · refine ⟨'0', digitChr n, by rw [if_pos hn], by decide, digitChr_isDigit n, ?_⟩
    rw [digitVal_digitChr]
    have : digitVal '0' = 0 := by decide
    rw [this]
    omega
  · refine ⟨digitChr (n / 10), digitChr (n % 10), by rw [if_neg hn],
      digitChr_isDigit _, digitChr_isDigit _, ?_⟩
    rw [digitVal_digitChr, digitVal_digitChr]
    have h1 : n / 10 % 10 = n / 10 := Nat.mod_eq_of_lt (by omega)
    have h2 : n % 10 % 10 = n % 10 := Nat.mod_eq_of_lt (by omega)
    rw [h1, h2]
    omega

theorem parseMonth_bounds {l : List Char} {m : Nat} {r : List Char}
    (h : parseMonth l = some (m, r)) : 1 ≤ m ∧ m ≤ 12 := by
  unfold parseMonth at h
  split at h
  · split_ifs at h with hc
    · obtain ⟨h1, -⟩ := Prod.mk.injEq .. ▸ (Option.some.inj h)
      unfold digitVal at h1
      omega
    · obtain ⟨h1, -⟩ := Prod.mk.injEq .. ▸ (Option.some.inj h)
      omega
  · split_ifs at h with hc
    obtain ⟨h1, -⟩ := Prod.mk.injEq .. ▸ (Option.some.inj h)
    unfold digitVal at h1
    omega
  · split_ifs at h with hc
    obtain ⟨h1, -⟩ := Prod.mk.injEq .. ▸ (Option.some.inj h)
    unfold digitVal at h1
    omega
  · exact absurd h (by simp)

theorem parseDay_bounds {l : List Char} {d : Nat} {r : List Char}
    (h : parseDay l = some (d, r)) : 1 ≤ d ∧ d ≤ 31 := by
  unfold parseDay at h
  split at h
  · split_ifs at h with hc
    · obtain ⟨h1, -⟩ := Prod.mk.injEq .. ▸ (Option.some.inj h)
      rcases hc with hc | hc <;> subst hc
      · rw [show digitVal '0' = 0 from by decide] at h1; omega
      · rw [show digitVal '1' = 1 from by decide] at h1; omega
    · obtain ⟨h1, -⟩ := Prod.mk.injEq .. ▸ (Option.some.inj h)
      omega
  · split_ifs at h with hc
    · obtain ⟨h1, -⟩ := Prod.mk.injEq .. ▸ (Option.some.inj h)
      simp only [isDigitCh, decide_eq_true_eq] at hc
      unfold digitVal at h1
      omega
    · obtain ⟨h1, -⟩ := Prod.mk.injEq .. ▸ (Option.some.inj h)
      omega
  · split_ifs at h with hc
    · obtain ⟨h1, -⟩ := Prod.mk.injEq .. ▸ (Option.some.inj h)
      simp only [isDigitCh, decide_eq_true_eq] at hc
      unfold digitVal at h1
      omega
    · obtain ⟨h1, -⟩ := Prod.mk.injEq .. ▸ (Option.some.inj h)
      omega
  · split_ifs at h with hc
    obtain ⟨h1, -⟩ := Prod.mk.injEq .. ▸ (Option.some.inj h)
    unfold digitVal at h1
    omega
  · split_ifs at h with hc
    obtain ⟨h1, -⟩ := Prod.mk.injEq .. ▸ (Option.some.inj h)
    unfold digitVal at h1
    omega
  · exact absurd h (by simp)

theorem format_release_date_valid {s : String}
    (h : format_release_date s ≠ "Unknown") :
    isValidDateSeg (format_release_date s) = true := by
  unfold format_release_date at h ⊢
  cases hp : parseISO s with
  | none => rw [hp] at h; exact absurd rfl h
  | some t =>
    obtain ⟨y, m, d⟩ := t
    have hmd : (1 ≤ m ∧ m ≤ 12) ∧ 1 ≤ d ∧ d ≤ 31 := by
      unfold parseISO at hp
      cases h4 : parse4Y s.data with
      | none => rw [h4] at hp; simp at hp
      | some yr =>
        obtain ⟨y2, r1⟩ := yr
        rw [h4] at hp
        cases r1 with
        | nil => simp at hp
        | cons c1 r1a =>
          by_cases hc1 : c1 = '-'
          · subst hc1
            try simp only [] at hp
            cases hm : parseMonth r1a with
            | none => rw [hm] at hp; simp at hp
            | some mr =>
              obtain ⟨m2, r2⟩ := mr
              rw [hm] at hp
              cases r2 with
              | nil => simp at hp
              | cons c2 r2a =>
                by_cases hc2 : c2 = '-'
                · subst hc2
                  try simp only [] at hp
                  cases hdp : parseDay r2a with
                  | none => rw [hdp] at hp; simp at hp
                  | some dr =>
                    obtain ⟨d2, r3⟩ := dr
                    rw [hdp] at hp
                    cases r3 with
                    | nil =>
                      try simp only [] at hp
                      split_ifs at hp with hcal
                      simp only [Option.some.injEq, Prod.mk.injEq] at hp
                      obtain ⟨-, hm2, hd2⟩ := hp
                      obtain ⟨hm1, hm12⟩ := parseMonth_bounds hm
                      obtain ⟨hd1, hd31⟩ := parseDay_bounds hdp
                      subst hm2
                      subst hd2
                      exact ⟨⟨hm1, hm12⟩, hd1, hd31⟩
                    | cons c3 r3a => simp at hp
                · simp [hc2] at hp
          · simp [hc1] at hp
    try simp only [] at h ⊢
    obtain ⟨c1, c2, he1, hdg1, hdg2, hv1⟩ :=
      twoDigit_spec (y % 100) (Nat.mod_lt _ (by norm_num))
    obtain ⟨c3, c4, he2, hdg3, hdg4, hv2⟩ := twoDigit_spec m (by omega)
    obtain ⟨c5, c6, he3, hdg5, hdg6, hv3⟩ := twoDigit_spec d (by omega)
    rw [he1, he2, he3]
    rw [show ([c1, c2] ++ [c3, c4] ++ [c5, c6] : List Char) =
      [c1, c2, c3, c4, c5, c6] from by simp]
    have hdig : pyIsDigitStr (String.mk [c1, c2, c3, c4, c5, c6]) = true := by
      simp [pyIsDigitStr, hdg1, hdg2, hdg3, hdg4, hdg5, hdg6]
    have hlen : (String.mk [c1, c2, c3, c4, c5, c6]).length = 6 := rfl
    have hat2 : twoDigitAt (String.mk [c1, c2, c3, c4, c5, c6]) 2 = m := by
      show digitVal (List.getD [c1, c2, c3, c4, c5, c6] 2 '0') * 10 +
        digitVal (List.getD [c1, c2, c3, c4, c5, c6] (2 + 1) '0') = m
      simp only [List.getD_cons_succ, List.getD_cons_zero]
      exact hv2
    have hat4 : twoDigitAt (String.mk [c1, c2, c3, c4, c5, c6]) 4 = d := by
      show digitVal (List.getD [c1, c2, c3, c4, c5, c6] 4 '0') * 10 +
        digitVal (List.getD [c1, c2, c3, c4, c5, c6] (4 + 1) '0') = d
      simp only [List.getD_cons_succ, List.getD_cons_zero]
      exact hv3
    simp only [isValidDateSeg, hdig, hlen, hat2, hat4, Bool.decide_and,
      Bool.and_eq_true, decide_eq_true_eq]
    refine ⟨trivial, trivial, ?_, ?_, ?_, ?_⟩ <;> omega

theorem resolveFormattedDate_valid {vn : Candidate} {rel : Option ReleaseInfo}
    (h : resolveFormattedDate vn rel ≠ "Unknown") :
    isValidDateSeg (resolveFormattedDate vn rel) = true := by
  unfold resolveFormattedDate at h ⊢
  cases ho : resolveDateStr vn rel with
  | none => rw [ho] at h; exact absurd rfl h
  | some s =>
    rw [ho] at h
    unfold fmtDateOpt at h ⊢
    try simp only [] at h ⊢
    by_cases hs : s = ""
    · rw [if_pos hs] at h; exact absurd rfl h
    · rw [if_neg hs] at h ⊢
      exact format_release_date_valid h

theorem natStrAux_digits :
    ∀ (fuel n : Nat), ∀ c ∈ natStrAux fuel n, isDigitCh c = true := by
  intro fuel
  induction fuel with
  | zero =>
    intro n c hc
    simp only [natStrAux, List.mem_singleton] at hc
    subst hc
    exact digitChr_isDigit n
  | succ fuel ih =>
    intro n c hc
    simp only [natStrAux] at hc
    by_cases hn : n < 10
    · rw [if_pos hn] at hc
      simp only [List.mem_singleton] at hc
      subst hc
      exact digitChr_isDigit n
    · rw [if_neg hn] at hc
      rcases List.mem_append.mp hc with h | h
      · exact ih _ _ h
      · simp only [List.mem_singleton] at h
        subst h
        exact digitChr_isDigit _

theorem validDateSeg_facts {D : String} (h : isValidDateSeg D = true) :
    pyIsDigitStr D = true ∧ D.length = 6 ∧
    (1 ≤ twoDigitAt D 2 ∧ twoDigitAt D 2 ≤ 12 ∧ 1 ≤ twoDigitAt D 4 ∧ twoDigitAt D 4 ≤ 31) := by
  simp only [isValidDateSeg, Bool.decide_and, Bool.and_eq_true, decide_eq_true_eq] at h
  exact ⟨h.1, h.2.1, h.2.2⟩

theorem str_ne_empty_of_len {P : String} (h : 3 ≤ P.length) : P ≠ "" := by
  intro hc
  rw [hc] at h
  exact absurd h (by decide)

theorem findBracketSpans_bracketS (P : String) (t : List Char)
    (hr : ']' ∉ P.data) (hn : '\n' ∉ P.data) :
    findBracketSpans ('[' :: (P.data ++ ']' :: t)) = P :: findBracketSpans t :=
  findBracketSpans_bracket t hr hn

theorem defaultName_data_eq (P D L T F : String) (tags : Option String) :
    ∃ suffix : List Char,
      (defaultName P D L T F tags).data =
        '[' :: (P.data ++ ']' :: ('[' :: (D.data ++ ']' ::
          (L.data ++ ' ' :: (T.data ++ suffix))))) ∧
      ('[' ∉ F.data → '[' ∉ (tags.getD "").data → '[' ∉ suffix) := by
  simp only [defaultName]
  by_cases hF : F ≠ ""
  · by_cases hG : truthyStr tags = true
    · refine ⟨' ' :: '\x7b' :: (F.data ++ '\x7d' :: ' ' :: '(' ::
        ((tags.getD "").data ++ [')'])), ?_, ?_⟩
      · rw [if_pos hF, if_pos hG]
        simp [String.data_append, List.append_assoc,
          show ("[" : String).data = ['['] from rfl,
          show ("][" : String).data = [']', '['] from rfl,
          show ("]" : String).data = [']'] from rfl,
          show (" " : String).data = [' '] from rfl,
          show (" \x7b" : String).data = [' ', '\x7b'] from rfl,
          show ("\x7d" : String).data = ['\x7d'] from rfl,
          show (" (" : String).data = [' ', '('] from rfl,
          show (")" : String).data = [')'] from rfl]
      · intro h1 h2
        simp [h1, h2]
    · refine ⟨' ' :: '\x7b' :: (F.data ++ ['\x7d']), ?_, ?_⟩
      · rw [if_pos hF, if_neg hG]
        simp [String.data_append, List.append_assoc,
          show ("[" : String).data = ['['] from rfl,
          show ("][" : String).data = [']', '['] from rfl,
          show ("]" : String).data = [']'] from rfl,
          show (" " : String).data = [' '] from rfl,
          show (" \x7b" : String).data = [' ', '\x7b'] from rfl,
          show ("\x7d" : String).data = ['\x7d'] from rfl]
      · intro h1 _
        simp [h1]
  · by_cases hG : truthyStr tags = true
    · refine ⟨' ' :: '(' :: ((tags.getD "").data ++ [')']), ?_, ?_⟩
      · rw [if_neg hF, if_pos hG]
        simp [String.data_append, List.append_assoc,
          show ("[" : String).data = ['['] from rfl,
          show ("][" : String).data = [']', '['] from rfl,
          show ("]" : String).data = [']'] from rfl,
          show (" " : String).data = [' '] from rfl,
          show (" (" : String).data = [' ', '('] from rfl,
          show (")" : String).data = [')'] from rfl]
      · intro _ h2
        simp [h2]
    · refine ⟨[], ?_, ?_⟩
      · rw [if_neg hF, if_neg hG]
        simp [String.data_append, List.append_assoc,
          show ("[" : String).data = ['['] from rfl,
          show ("][" : String).data = [']', '['] from rfl,
          show ("]" : String).data = [']'] from rfl,
          show (" " : String).data = [' '] from rfl]
      · intro _ _
        simp

/-- C7 (amended): the round-trip holds under the conditions it actually
needs: the resolved producer must be at least 3 characters, not all digits,
already stripped, and free of `[`, `]` and newline; the resolved date must
format to a real `YYMMDD` value (not `"Unknown"`); and the title, the
computed flags string and the tags must contain no `[`.  Then parsing the
default-template name recovers exactly the formatted date and the producer
used to build it. -/
theorem default_name_roundtrip (vn : Candidate) (rel : Option ReleaseInfo)
    (flags tags : Option String)
    (hP1 : pyStrip (resolveProducer vn rel) = resolveProducer vn rel)
    (hP2 : 3 ≤ (resolveProducer vn rel).length)
    (hP3 : pyIsDigitStr (resolveProducer vn rel) = false)
    (_hP4 : '[' ∉ (resolveProducer vn rel).data)
    (hP5 : ']' ∉ (resolveProducer vn rel).data)
    (hP6 : '\n' ∉ (resolveProducer vn rel).data)
    (hD : resolveFormattedDate vn rel ≠ "Unknown")
    (hT : '[' ∉ (vn.title.getD "Unknown Title").data)
    (hF : '[' ∉ (flagsComputed flags).data)
    (hG : '[' ∉ (tags.getD "").data) :
    suggest_new_folder_name vn rel flags tags none =
      .ok (defaultName (resolveProducer vn rel) (resolveFormattedDate vn rel)
        (lengthToken vn) (vn.title.getD "Unknown Title") (flagsComputed flags) tags) ∧
    parse_bracket_info (defaultName (resolveProducer vn rel) (resolveFormattedDate vn rel)
        (lengthToken vn) (vn.title.getD "Unknown Title") (flagsComputed flags) tags) =
      (resolveFormattedDate vn rel, resolveProducer vn rel) := by
  obtain ⟨hDdig, hDlen, hDrange⟩ := validDateSeg_facts (resolveFormattedDate_valid hD)
  obtain ⟨hDlb, hDrb, hDnl, hDstrip⟩ := digit_str_no_special hDdig
  have hPne : resolveProducer vn rel ≠ "" := str_ne_empty_of_len hP2
  refine ⟨rfl, ?_⟩
  obtain ⟨suffix, hdata, hsuf⟩ := defaultName_data_eq (resolveProducer vn rel)
    (resolveFormattedDate vn rel) (lengthToken vn) (vn.title.getD "Unknown Title")
    (flagsComputed flags) tags
  have hsufn : '[' ∉ suffix := hsuf hF hG
  unfold parse_bracket_info
  rw [hdata]
  rw [findBracketSpans_bracketS _ _ hP5 hP6]
  rw [findBracketSpans_bracketS _ _ hDrb hDnl]
  have hstep1 : ∀ rest : List String,
      pbiGo (resolveProducer vn rel :: rest) "" "" = pbiGo rest "" (resolveProducer vn rel) := by
    intro rest
    simp only [pbiGo, hP1]
    rw [if_neg (fun hcon => by rw [hP3] at hcon; exact absurd hcon.1 (by simp))]
    rw [if_pos ⟨hP2, fun hcon => by rw [hP3] at hcon; exact absurd hcon.1 (by simp), by trivial⟩]
  have hstep2 : ∀ rest : List String,
      pbiGo (resolveFormattedDate vn rel :: rest) "" (resolveProducer vn rel) =
        pbiGo rest (resolveFormattedDate vn rel) (resolveProducer vn rel) := by
    intro rest
    simp only [pbiGo, hDstrip]
    rw [if_pos ⟨hDdig, hDlen⟩, if_pos hDrange]
  cases hL : vn.length with
  | none =>
    have hLtok : lengthToken vn = "" := by
      unfold lengthToken
      rw [hL]
    rw [hLtok] at *
    have htail : findBracketSpans ((("" : String).data ++ ' ' ::
        ((vn.title.getD "Unknown Title").data ++ suffix))) = [] := by
      apply findBracketSpans_no_lb
      intro hmem
      simp only [show ("" : String).data = [] from rfl, List.nil_append,
        List.mem_cons, List.mem_append] at hmem
      rcases hmem with h | h | h
      · exact absurd h (by decide)
      · exact hT h
      · exact hsufn h
    rw [htail, hstep1, hstep2]
    rfl
  | some n =>
    have hLtok : lengthToken vn = "[L" ++ natStr n ++ "]" := by
      unfold lengthToken
      rw [hL]
    rw [hLtok] at *
    have hLdata : ("[L" ++ natStr n ++ "]").data ++ ' ' ::
        ((vn.title.getD "Unknown Title").data ++ suffix) =
        '[' :: (('L' :: natStrAux n n) ++ ']' ::
          (' ' :: ((vn.title.getD "Unknown Title").data ++ suffix))) := by
      simp [String.data_append, List.append_assoc,
        show ("[L" : String).data = ['[', 'L'] from rfl,
        show ("]" : String).data = [']'] from rfl,
        show (natStr n).data = natStrAux n n from rfl]
    rw [hLdata]
    have hLSr : ']' ∉ ('L' :: natStrAux n n) := by
      intro hmem
      rcases List.mem_cons.mp hmem with h | h
      · exact absurd h (by decide)
      · exact digit_ne_rbrack (natStrAux_digits n n _ h) rfl
    have hLSn : '\n' ∉ ('L' :: natStrAux n n) := by
      intro hmem
      rcases List.mem_cons.mp hmem with h | h
      · exact absurd h (by decide)
      · exact digit_ne_newline (natStrAux_digits n n _ h) rfl
    rw [findBracketSpans_open (scanSpan_append _ _ hLSr hLSn)]
    have htail : findBracketSpans (' ' ::
        ((vn.title.getD "Unknown Title").data ++ suffix)) = [] := by
      apply findBracketSpans_no_lb
      intro hmem
      simp only [List.mem_cons, List.mem_append] at hmem
      rcases hmem with h | h | h
      · exact absurd h (by decide)
      · exact hT h
      · exact hsufn h
    rw [htail, hstep1, hstep2]
    have hLS : pyStrip (String.mk ('L' :: natStrAux n n)) = String.mk ('L' :: natStrAux n n) := by
      apply pyStrip_eq_self
      intro c hc
      rcases List.mem_cons.mp hc with h | h
      · subst h; decide
      · exact digit_not_space (natStrAux_digits n n _ h)
    have hLSdig : pyIsDigitStr (String.mk ('L' :: natStrAux n n)) = false := by
      simp only [pyIsDigitStr, Bool.decide_and]
      have : isDigitCh 'L' = false := by decide
      simp [List.all_cons, this]
    simp only [pbiGo, hLS]
    rw [if_neg (fun hcon => by rw [hLSdig] at hcon; exact absurd hcon.1 (by simp))]
    rw [if_neg (fun hcon => hPne hcon.2.2)]

/-- Witness for C7: the specification's own synthesizer example round-trips. -/
theorem default_name_roundtrip_witness :
    suggest_new_folder_name vnFate none none none none =
      .ok "[TYPE-MOON][040129][L40] Fate Stay" ∧
    parse_bracket_info "[TYPE-MOON][040129][L40] Fate Stay" = ("040129", "TYPE-MOON") := by
  have h := default_name_roundtrip vnFate none none none
    (by decide) (by decide) (by decide) (by decide) (by decide) (by decide)
    (by decide) (by decide) (by decide) (by decide)
  have heq : defaultName (resolveProducer vnFate none) (resolveFormattedDate vnFate none)
      (lengthToken vnFate) (vnFate.title.getD "Unknown Title") (flagsComputed none) none =
      "[TYPE-MOON][040129][L40] Fate Stay" := by decide
  have hDv : resolveFormattedDate vnFate none = "040129" := by decide
  have hPv : resolveProducer vnFate none = "TYPE-MOON" := by decide
  rw [heq, hDv, hPv] at h
  exact h

/-- Counterexample to C7 as stated: for a VN whose (bracket-free) producer is
`"TYPE-MOON"` and whose date formats to `"231215"`, but whose title contains
the bracketed span `"[991231]"`, parsing the generated default name yields
`"991231"` as the expected date, not the date used to build the name. -/
theorem default_name_roundtrip_cex :
    resolveProducer vnBracketTitle none = "TYPE-MOON" ∧
    resolveFormattedDate vnBracketTitle none = "231215" ∧
    suggest_new_folder_name vnBracketTitle none none none none =
      .ok "[TYPE-MOON][231215] Foo [991231]" ∧
    (parse_bracket_info "[TYPE-MOON][231215] Foo [991231]").1 = "991231" ∧
    ¬((parse_bracket_info "[TYPE-MOON][231215] Foo [991231]").1 = "231215") := by
  refine ⟨by decide, by decide, rfl, by decide, by decide⟩

end VNRename
